import Mathlib

/-!
Shallow embedding of the Lumina Finance backend's ledger-balance maintenance,
transaction lifecycle, recurring-rule projection and category services
(`src/services/transaction.service.js`, `src/services/cronJobs.service.js`,
`src/services/category.service.js`).

Amounts are embedded as `Int` (the service arithmetic is addition, subtraction
and `Math.abs` on numbers).  The database is embedded as in-memory lists of
rows; each supabase `select ... .single()` becomes a `List.find?` with the
query's filters, each `update` becomes a `List.map` over the matching rows, and
a thrown error becomes an `Except.error` carried next to the (possibly already
mutated) store, so that writes performed before a throw persist exactly as they
do against the real database.  Inert columns that never influence control flow
or balances (date, payee, memo, timestamps) are omitted.
-/

namespace Lumina

/-- Account categories, from the `type` column checked by the validators
(`checking, savings, credit_card, loan, investment, cash`). -/
inductive AccountType where
  | checking
  | savings
  | credit_card
  | loan
  | investment
  | cash
deriving DecidableEq, Repr

/-- Transaction kinds (`income`, `expense`, `transfer`). -/
inductive TxType where
  | income
  | expense
  | transfer
deriving DecidableEq, Repr

/-- Row of the `accounts` table.  `deleted` models `deleted_at` being non-null. -/
structure Account where
  id : Nat
  user_id : Nat
  type : AccountType
  currency : String
  opening_balance : Int
  current_balance : Int
  deleted : Bool
deriving DecidableEq, Repr

/-- Row of the `transactions` table. -/
structure Txn where
  id : Nat
  user_id : Nat
  type : TxType
  account_id : Option Nat := none
  from_account_id : Option Nat := none
  to_account_id : Option Nat := none
  category_id : Option Nat := none
  amount : Int
  currency : String
  deleted : Bool := false
deriving DecidableEq, Repr

/-- Category kinds (`income` or `expense`). -/
inductive CatType where
  | income
  | expense
deriving DecidableEq, Repr

/-- Row of the `categories` table. -/
structure Category where
  id : Nat
  user_id : Nat
  type : CatType
  parent_id : Option Nat := none
  deleted : Bool := false
deriving DecidableEq, Repr

/-- The in-memory image of the database tables the services touch. -/
structure DB where
  accounts : List Account
  transactions : List Txn
  categories : List Category
deriving Repr, DecidableEq

/-- Embedding of `supabase.from('accounts').select().eq('id',·).eq('user_id',·).is('deleted_at',null).single()`. -/
def findAccount (db : DB) (uid accId : Nat) : Option Account :=
  db.accounts.find? fun a => a.id == accId && a.user_id == uid && !a.deleted

/-- Account lookup used by `revertTransactionBalance`, which filters on `id` only. -/
def findAccountById (db : DB) (accId : Nat) : Option Account :=
  db.accounts.find? fun a => a.id == accId

/-- Category lookup filtered on id, owner and non-deletion. -/
def findCategory (db : DB) (uid catId : Nat) : Option Category :=
  db.categories.find? fun c => c.id == catId && c.user_id == uid && !c.deleted

/-- Transaction lookup filtered on id, owner and non-deletion. -/
def findTxn (db : DB) (uid txId : Nat) : Option Txn :=
  db.transactions.find? fun t => t.id == txId && t.user_id == uid && !t.deleted

/-- Row-level effect of the balance write. -/
def writeBal (accId : Nat) (v : Int) (a : Account) : Account :=
  if a.id == accId then { a with current_balance := v } else a

/-- Embedding of `supabase.from('accounts').update({current_balance: v}).eq('id', accId)`:
writes the absolute value `v` into every row whose id matches. -/
def setBalance (db : DB) (accId : Nat) (v : Int) : DB :=
  { db with accounts := db.accounts.map (writeBal accId v) }

/-- Embedding of `supabase.from('transactions').update(fields).eq('id', txId)`. -/
def replaceTxn (db : DB) (txId : Nat) (t : Txn) : DB :=
  { db with transactions :=
      db.transactions.map fun u => if u.id == txId then t else u }

/-- Soft delete: `update({deleted_at: now}).eq('id', txId)`. -/
def markTxnDeleted (db : DB) (txId : Nat) : DB :=
  { db with transactions :=
      db.transactions.map fun u => if u.id == txId then { u with deleted := true } else u }

/-- Fresh id for an inserted transaction row (the DB generates ids; we model
generation as one more than the largest id present). -/
def freshTxnId (db : DB) : Nat :=
  (db.transactions.map (·.id)).foldr max 0 + 1

/-- Embedding of `if (currency && currency !== account.currency)`: the mismatch check runs
only when a currency was supplied. -/
def currencyMismatch (req : Option String) (accountCurrency : String) : Bool :=
  match req with
  | some c => c != accountCurrency
  | none => false

/-- Request payload of `createTransaction` (fields absent from the JSON body
are `none`). -/
structure TxnInput where
  type : TxType
  accountId : Option Nat := none
  fromAccountId : Option Nat := none
  toAccountId : Option Nat := none
  categoryId : Option Nat := none
  amount : Int
  currency : Option String := none
deriving DecidableEq, Repr

/-- Embedding of `async createTransaction(userId, transactionData)` from
`src/services/transaction.service.js` (lines 8-185).  The result pairs the
outcome with the store; every error is thrown before the first write, so on
`error` the store is returned unchanged, exactly as in the source. -/
def createTransaction (db : DB) (uid : Nat) (d : TxnInput) : Except String Txn × DB :=
  if d.type = TxType.transfer then
    match d.fromAccountId, d.toAccountId with
    | some fid, some tid =>
      if fid = tid then (Except.error "Cannot transfer to the same account", db)
      else
        match findAccount db uid fid with
        | none => (Except.error "Source account not found or does not belong to user", db)
        | some fromAccount =>
          match findAccount db uid tid with
          | none => (Except.error "Destination account not found or does not belong to user", db)
          | some toAccount =>
            if fromAccount.currency ≠ toAccount.currency then
              (Except.error "Transfer between different currencies not yet supported", db)
            else
              let t : Txn :=
                { id := freshTxnId db, user_id := uid, type := TxType.transfer,
                  from_account_id := some fid, to_account_id := some tid,
                  amount := |d.amount|, currency := fromAccount.currency }
              let db1 : DB := { db with transactions := db.transactions ++ [t] }
              let transferAmount : Int := |d.amount|
              let db2 := setBalance db1 fid (fromAccount.current_balance - transferAmount)
              let db3 := setBalance db2 tid (toAccount.current_balance + transferAmount)
              (Except.ok t, db3)
    | _, _ => (Except.error "Transfer transactions require both fromAccountId and toAccountId", db)
  else
    match d.accountId with
    | none => (Except.error "accountId is required for income/expense transactions", db)
    | some accId =>
      match findAccount db uid accId with
      | none => (Except.error "Account not found or does not belong to user", db)
      | some account =>
        if currencyMismatch d.currency account.currency then
          (Except.error "Transaction currency must match account currency", db)
        else if (match d.categoryId with
                 | some cid => (findCategory db uid cid).isNone
                 | none => false) then
          (Except.error "Category not found or does not belong to user", db)
        else
          let transactionAmount : Int :=
            if d.type = TxType.expense then -|d.amount| else |d.amount|
          let t : Txn :=
            { id := freshTxnId db, user_id := uid, type := d.type,
              account_id := some accId, category_id := d.categoryId,
              amount := transactionAmount, currency := account.currency }
          let db1 : DB := { db with transactions := db.transactions ++ [t] }
          let db2 := setBalance db1 accId (account.current_balance + transactionAmount)
          (Except.ok t, db2)

/-- Embedding of `async revertTransactionBalance(transaction)` (lines 468-519).  For a
transfer both balances are read before either write, so the second write uses
the destination balance as it stood before the source write. -/
def revertTransactionBalance (db : DB) (t : Txn) : DB :=
  if t.type = TxType.transfer then
    match t.from_account_id, t.to_account_id with
    | some fid, some tid =>
      match findAccountById db fid, findAccountById db tid with
      | some fromAccount, some toAccount =>
        let db1 := setBalance db fid (fromAccount.current_balance + t.amount)
        setBalance db1 tid (toAccount.current_balance - t.amount)
      | _, _ => db
    | _, _ => db
  else
    match t.account_id with
    | some aid =>
      match findAccountById db aid with
      | some account => setBalance db aid (account.current_balance - t.amount)
      | none => db
    | none => db

/-- JavaScript `a || b` on an optionally supplied number: `0` is falsy, so a
supplied `0` falls back to the default (used for `amount || oldTransaction.amount`). -/
def jsOrAmount (supplied : Option Int) (dflt : Int) : Int :=
  match supplied with
  | some a => if a = 0 then dflt else a
  | none => dflt

/-- Patch body of `updateTransaction` (fields absent from the JSON body are
`none`). -/
structure TxnPatch where
  type : Option TxType := none
  accountId : Option Nat := none
  fromAccountId : Option Nat := none
  toAccountId : Option Nat := none
  categoryId : Option Nat := none
  amount : Option Int := none
  currency : Option String := none
deriving DecidableEq, Repr

/-- Embedding of `async updateTransaction(userId, transactionId, updateData)` (lines
268-432).  The old balance effect is reverted immediately after the fetch;
validation failures thrown later therefore return a store in which the revert
has already been written, exactly as in the source.  When the patch's `type`
is not `transfer` the code falls through to the income/expense path even when
the stored transaction is a transfer. -/
def updateTransaction (db : DB) (uid txId : Nat) (p : TxnPatch) : Except String Txn × DB :=
  match findTxn db uid txId with
  | none => (Except.error "Transaction not found", db)
  | some oldT =>
    let db1 := revertTransactionBalance db oldT
    if p.type = some TxType.transfer then
      match p.fromAccountId, p.toAccountId with
      | some fid, some tid =>
        match findAccount db1 uid fid, findAccount db1 uid tid with
        | some fromAccount, some toAccount =>
          let transferAmount : Int := |jsOrAmount p.amount oldT.amount|
          let newT : Txn :=
            { oldT with type := TxType.transfer,
                        from_account_id := some fid, to_account_id := some tid,
                        amount := transferAmount, currency := fromAccount.currency }
          let db2 := replaceTxn db1 txId newT
          let db3 := setBalance db2 fid (fromAccount.current_balance - transferAmount)
          let db4 := setBalance db3 tid (toAccount.current_balance + transferAmount)
          (Except.ok newT, db4)
        | _, _ => (Except.error "One or both accounts not found", db1)
      | _, _ =>
        (Except.error "Transfer transactions require both fromAccountId and toAccountId", db1)
    else
      match p.accountId.orElse fun _ => oldT.account_id with
      | none => (Except.error "Account not found", db1)
      | some targetAccountId =>
        match findAccount db1 uid targetAccountId with
        | none => (Except.error "Account not found", db1)
        | some account =>
          if (match p.categoryId with
              | some cid => (findCategory db1 uid cid).isNone
              | none => false) then
            (Except.error "Category not found", db1)
          else
            let newType := p.type.getD oldT.type
            let newAmount : Int := p.amount.getD |oldT.amount|
            let transactionAmount : Int :=
              if newType = TxType.expense then -|newAmount| else |newAmount|
            let newT : Txn :=
              { oldT with type := newType, account_id := some targetAccountId,
                          category_id := (match p.categoryId with
                                          | some cid => some cid
                                          | none => oldT.category_id),
                          amount := transactionAmount,
                          currency := p.currency.getD oldT.currency }
            let db2 := replaceTxn db1 txId newT
            let db3 := setBalance db2 targetAccountId (account.current_balance + transactionAmount)
            (Except.ok newT, db3)

/-- Embedding of `async deleteTransaction(userId, transactionId)` (lines 437-463): fetch,
revert the balance effect, soft-delete. -/
def deleteTransaction (db : DB) (uid txId : Nat) : Except String Unit × DB :=
  match findTxn db uid txId with
  | none => (Except.error "Transaction not found", db)
  | some t =>
    let db1 := revertTransactionBalance db t
    (Except.ok (), markTxnDeleted db1 txId)

/-- Result shape of `bulkCreateTransactions`: `{ successful: [...], failed:
[{data, error}] }`. -/
structure BulkResult where
  successful : List Txn
  failed : List (TxnInput × String)
deriving DecidableEq, Repr

/-- Embedding of `async bulkCreateTransactions(userId, transactionsData)` (lines 552-571):
each item goes through `createTransaction` inside its own try/catch, so one
item's failure never aborts the rest of the batch. -/
def bulkCreateTransactions (db : DB) (uid : Nat) : List TxnInput → BulkResult × DB
  | [] => ({ successful := [], failed := [] }, db)
  | d :: rest =>
    match createTransaction db uid d with
    | (Except.ok t, db1) =>
      let (r, db2) := bulkCreateTransactions db1 uid rest
      ({ r with successful := t :: r.successful }, db2)
    | (Except.error e, db1) =>
      let (r, db2) := bulkCreateTransactions db1 uid rest
      ({ r with failed := (d, e) :: r.failed }, db2)

/-- Result shape `{ success_count, failed_count, errors: [{item, error}] }`. -/
structure BulkImportResult where
  success_count : Nat
  failed_count : Nat
  errors : List (TxnInput × String)
deriving DecidableEq, Repr

/-- Modelled from the spec: the transactions controllers in the repository call
`transactionService.bulkImport(userId, transactions)`, but no implementation of
`bulkImport` is present under src (only `bulkCreateTransactions` is).  Per §4.2
it "applies Create to each; collects per-item success/failure; never aborts the
batch on a single item's failure; returns a result of the form
`{ success_count, failed_count, errors: [{item, error}] }`". -/
def bulkImport (db : DB) (uid : Nat) (items : List TxnInput) : BulkImportResult × DB :=
  let (r, db') := bulkCreateTransactions db uid items
  ({ success_count := r.successful.length, failed_count := r.failed.length,
     errors := r.failed }, db')

/-! Calendar dates, embedding the JavaScript `Date` arithmetic used by
`calculateNextDue` in `src/services/cronJobs.service.js` (lines 784-833).
A date is a normalized Gregorian calendar day; `setDate`, `setMonth` and
`setFullYear` overflow-normalization is reproduced explicitly. -/

/-- A calendar date (year, month 1-12, day 1-31). -/
structure Date where
  year : Int
  month : Nat
  day : Nat
deriving DecidableEq, Repr

/-- Gregorian leap-year rule (JavaScript `Date` uses the proleptic Gregorian
calendar). -/
def isLeap (y : Int) : Bool :=
  (y % 4 == 0 && y % 100 != 0) || y % 400 == 0

/-- Number of days in a month. -/
def daysInMonth (y : Int) (m : Nat) : Nat :=
  if m = 2 then (if isLeap y then 29 else 28)
  else if m = 4 ∨ m = 6 ∨ m = 9 ∨ m = 11 then 30
  else 31

/-- Successor day in the calendar. -/
def nextDay (d : Date) : Date :=
  if d.day < daysInMonth d.year d.month then { d with day := d.day + 1 }
  else if d.month < 12 then { year := d.year, month := d.month + 1, day := 1 }
  else { year := d.year + 1, month := 1, day := 1 }

/-- Embedding of `date.setDate(date.getDate() + n)` for `n ≥ 0`: advance `n` calendar days. -/
def addDays (d : Date) (n : Nat) : Date :=
  Nat.iterate nextDay n d

/-- Embedding of `date.setMonth(date.getMonth() + n)`: add `n` months keeping the day of
month, then normalize a day overflow into the following month, exactly as the
JavaScript `Date` does (e.g. Jan 31 + 1 month = Mar 3). -/
def addMonths (d : Date) (n : Nat) : Date :=
  let total : Int := (d.month : Int) - 1 + (n : Int)
  let y : Int := d.year + total / 12
  let m : Nat := (total % 12).toNat + 1
  if d.day ≤ daysInMonth y m then { year := y, month := m, day := d.day }
  else if m < 12 then { year := y, month := m + 1, day := d.day - daysInMonth y m }
  else { year := y + 1, month := 1, day := d.day - daysInMonth y m }

/-- Embedding of `date.setFullYear(date.getFullYear() + n)`: add `n` years keeping month and
day, normalizing Feb 29 of a non-leap target year into March. -/
def addYears (d : Date) (n : Nat) : Date :=
  let y : Int := d.year + (n : Int)
  if d.day ≤ daysInMonth y d.month then { year := y, month := d.month, day := d.day }
  else if d.month < 12 then
    { year := y, month := d.month + 1, day := d.day - daysInMonth y d.month }
  else { year := y + 1, month := 1, day := d.day - daysInMonth y d.month }

/-- Total order on normalized dates: the comparison `nextDue <= today` on
JavaScript `Date` timestamps is the lexicographic order on (year, month, day). -/
def Date.key (d : Date) : Int :=
  d.year * 10000 + (d.month : Int) * 100 + (d.day : Int)

/-- Comparison `d1 <= d2` as timestamps. -/
def dateLe (d1 d2 : Date) : Bool := d1.key ≤ d2.key

/-- Comparison `d1 < d2` as timestamps. -/
def dateLt (d1 d2 : Date) : Bool := d1.key < d2.key

/-- Recurrence frequencies accepted by the service. -/
inductive Frequency where
  | daily
  | weekly
  | monthly
  | yearly
deriving DecidableEq, Repr

/-- Row of the `recurring_transactions` table (fields read by
`calculateNextDue`). -/
structure RecurringRule where
  is_active : Bool
  frequency : Frequency
  interval : Nat
  start_date : Date
  last_processed : Option Date := none
  end_date : Option Date := none
deriving DecidableEq, Repr

/-- Status component of the object `calculateNextDue` returns; the inactive
branch returns no `status` field at all, which we model as `none`. -/
inductive DueStatus where
  | ended
  | due
  | scheduled
deriving DecidableEq, Repr

/-- Fields `calculateNextDue` adds to the rule. -/
structure NextDueResult where
  next_due_date : Option Date
  is_due : Bool
  status : Option DueStatus
deriving DecidableEq, Repr

/-- Embedding of `calculateNextDue(recurring)` (lines 784-833): the base date is
`last_processed` when present, else `start_date`; the interval defaults to 1
when falsy; the advance is by frequency; a `next_due` past a set `end_date`
yields the terminal `ended` result; otherwise the rule is due exactly when
`next_due <= today`. -/
def calculateNextDue (r : RecurringRule) (today : Date) : NextDueResult :=
  if !r.is_active then
    { next_due_date := none, is_due := false, status := none }
  else
    let baseDate := r.last_processed.getD r.start_date
    let interval := if r.interval = 0 then 1 else r.interval
    let nextDue :=
      match r.frequency with
      | Frequency.daily => addDays baseDate interval
      | Frequency.weekly => addDays baseDate (interval * 7)
      | Frequency.monthly => addMonths baseDate interval
      | Frequency.yearly => addYears baseDate interval
    if (match r.end_date with
        | some e => dateLt e nextDue
        | none => false) then
      { next_due_date := none, is_due := false, status := some DueStatus.ended }
    else
      let isDue := dateLe nextDue today
      { next_due_date := some nextDue, is_due := isDue,
        status := some (if isDue then DueStatus.due else DueStatus.scheduled) }

/-! Category service (`src/services/category.service.js`). -/

/-- Lookup powering the parent-chain walk: `supabase.from('categories')
.select('parent_id').eq('id',·).eq('user_id',·).is('deleted_at',null).single()`
followed by `data?.parent_id` — a missing row and a null `parent_id` both end
the walk. -/
def parentOf (cats : List Category) (uid cid : Nat) : Option Nat :=
  match cats.find? (fun c => c.id == cid && c.user_id == uid && !c.deleted) with
  | some c => c.parent_id
  | none => none

/-- The body of the `while (currentId)` loop of `wouldCreateCircularReference`
(lines 285-312), with explicit fuel standing in for the loop's termination
(each pass either returns or adds a fresh id to `visited`, and ids are drawn
from the finite store, so `cats.length + 1` passes always suffice). -/
def circularLoop (cats : List Category) (uid categoryId : Nat) :
    Nat → List Nat → Option Nat → Bool
  | 0, _, _ => false
  | _ + 1, _, none => false
  | fuel + 1, visited, some c =>
    if c = categoryId then true
    else if c ∈ visited then true
    else circularLoop cats uid categoryId fuel (c :: visited) (parentOf cats uid c)

/-- Embedding of `async wouldCreateCircularReference(userId, categoryId, newParentId)`. -/
def wouldCreateCircularReference (cats : List Category) (uid categoryId newParentId : Nat) :
    Bool :=
  circularLoop cats uid categoryId (cats.length + 1) [] (some newParentId)

/-- Patch body of `updateCategory`.  `parent_id` distinguishes the JSON field
being absent (`none`), provided as null (`some none`) and provided as an id
(`some (some p)`), matching the `updates.parent_id !== undefined` and
`if (updates.parent_id)` tests in the source. -/
structure CatPatch where
  parent_id : Option (Option Nat) := none
deriving DecidableEq, Repr

/-- Application of the patch fields to a row, as in
`.update({...updates, updated_at: ...})`. -/
def applyCatPatch (p : CatPatch) (c : Category) : Category :=
  { c with parent_id := match p.parent_id with
                        | some v => v
                        | none => c.parent_id }

/-- Embedding of `async updateCategory(userId, categoryId, updates)` (lines 131-194): fetch
the category, then — when `parent_id` is being set — reject self-parenting, a
missing parent, a parent of a different type, and a circular chain, all before
the single write. -/
def updateCategory (cats : List Category) (uid categoryId : Nat) (p : CatPatch) :
    Except String Category × List Category :=
  match cats.find? (fun c => c.id == categoryId && c.user_id == uid && !c.deleted) with
  | none => (Except.error "Category not found", cats)
  | some existing =>
    let write : Except String Category × List Category :=
      (Except.ok (applyCatPatch p existing),
       cats.map fun c =>
         if c.id == categoryId && c.user_id == uid then applyCatPatch p c else c)
    match p.parent_id with
    | none => write
    | some parentField =>
      if parentField = some categoryId then
        (Except.error "Category cannot be its own parent", cats)
      else
        match parentField with
        | none => write
        | some newParentId =>
          match cats.find?
              (fun c => c.id == newParentId && c.user_id == uid && !c.deleted) with
          | none => (Except.error "Parent category not found", cats)
          | some parent =>
            if parent.type ≠ existing.type then
              (Except.error "Parent category type must match", cats)
            else if wouldCreateCircularReference cats uid categoryId newParentId then
              (Except.error "This would create a circular reference", cats)
            else write

/-- Iterated parent links: `parentChain cats uid k c` is the category id
reached from `c` by following `k` parent links, when every link on the way
exists (owned, non-deleted, non-null parent). -/
def parentChain (cats : List Category) (uid : Nat) : Nat → Nat → Option Nat
  | 0, c => some c
  | k + 1, c =>
    match parentOf cats uid c with
    | some pid => parentChain cats uid k pid
    | none => none

/-! The §3/§4.1 account-balance invariant, and well-formedness of the store. -/

/-- Signed contribution of one ledger entry to one account's running balance:
`-amount` on a transfer's source, `+amount` on its destination, `amount` on an
income/expense entry's account; soft-deleted entries contribute nothing. -/
def signedDelta (t : Txn) (accId : Nat) : Int :=
  if t.deleted then 0
  else
    match t.type with
    | TxType.transfer =>
      (if t.from_account_id = some accId then -t.amount else 0) +
      (if t.to_account_id = some accId then t.amount else 0)
    | _ => if t.account_id = some accId then t.amount else 0

/-- Sum of the signed deltas of a list of entries against one account. -/
def sumDeltas (ts : List Txn) (accId : Nat) : Int :=
  (ts.map fun t => signedDelta t accId).sum

/-- References of a live entry resolve to rows of the accounts table, and a
transfer's two endpoints are distinct. -/
def refsOk (accs : List Account) (t : Txn) : Bool :=
  if t.type = TxType.transfer then
    match t.from_account_id, t.to_account_id with
    | some fid, some tid =>
      fid != tid && accs.any (fun a => a.id == fid) && accs.any (fun a => a.id == tid)
    | _, _ => false
  else
    match t.account_id with
    | some aid => accs.any fun a => a.id == aid
    | none => true

/-- Well-formedness of the store: row ids are unique per table and live
entries reference existing account rows. -/
def wellFormed (db : DB) : Prop :=
  (db.accounts.map (·.id)).Nodup ∧
  (db.transactions.map (·.id)).Nodup ∧
  ∀ t ∈ db.transactions, t.deleted = false → refsOk db.accounts t = true

/-- The §3 invariant: every account row's `current_balance` equals its
`opening_balance` plus the signed sum of the active entries touching it. -/
def balanceInvariant (db : DB) : Prop :=
  ∀ a ∈ db.accounts, a.current_balance = a.opening_balance + sumDeltas db.transactions a.id

/-- The §4.1 effective delta as the specification words it, debt-account sign
inversion included: accounts of category `loan` or `credit_card` receive the
negated delta.  (Stated from the spec, to be compared with the code, which
applies `signedDelta` unmodified.) -/
def specEffectiveDelta (category : AccountType) (delta : Int) : Int :=
  if category = AccountType.loan ∨ category = AccountType.credit_card then -delta else delta

/-- The §3 invariant as the specification words it, with the §4.1 debt-account
sign inversion applied to each entry's delta. -/
def specBalanceInvariant (db : DB) : Prop :=
  ∀ a ∈ db.accounts,
    a.current_balance =
      a.opening_balance +
        (db.transactions.map fun t => specEffectiveDelta a.type (signedDelta t a.id)).sum

/-- Predicate `adjusted l l' f`: the account rows of `l'` are those of `l` with `f a.id`
added to each running balance (pointwise description of balance writes). -/
def adjusted (l l' : List Account) (f : Nat → Int) : Prop :=
  l' = l.map fun a => { a with current_balance := a.current_balance + f a.id }

/-- Sign invariant of stored entries: income amounts are non-negative, expense
amounts non-positive, transfer amounts non-negative magnitudes. -/
def signOk (t : Txn) : Prop :=
  match t.type with
  | TxType.income => 0 ≤ t.amount
  | TxType.expense => t.amount ≤ 0
  | TxType.transfer => 0 ≤ t.amount

/-! A client-visible operation sequence over the transaction endpoints. -/

/-- One API operation of the transaction service. -/
inductive Op where
  | create (uid : Nat) (d : TxnInput)
  | update (uid txId : Nat) (p : TxnPatch)
  | del (uid txId : Nat)
deriving Repr

/-- Applies one operation, keeping the store only when the call succeeds. -/
def applyOp (db : DB) : Op → Option DB
  | Op.create uid d =>
    match createTransaction db uid d with
    | (Except.ok _, db1) => some db1
    | (Except.error _, _) => none
  | Op.update uid txId p =>
    match updateTransaction db uid txId p with
    | (Except.ok _, db1) => some db1
    | (Except.error _, _) => none
  | Op.del uid txId =>
    match deleteTransaction db uid txId with
    | (Except.ok _, db1) => some db1
    | (Except.error _, _) => none

/-- Safety side conditions on an update patch, under which the endpoint keeps
the balance invariant: a transfer patch names two distinct accounts, and a
patch on a stored transfer re-declares `type = transfer` (the code otherwise
falls through to the income/expense path while keeping the row a transfer). -/
def opSafe (db : DB) : Op → Prop
  | Op.update uid txId p =>
    (p.type = some TxType.transfer → p.fromAccountId ≠ p.toAccountId) ∧
    (match findTxn db uid txId with
     | some u => u.type = TxType.transfer → p.type = some TxType.transfer
     | none => True)
  | _ => True

/-- Applies a list of operations, `none` as soon as one fails. -/
def applyOps (db : DB) : List Op → Option DB
  | [] => some db
  | op :: rest =>
    match applyOp db op with
    | some db1 => applyOps db1 rest
    | none => none

/-- Every operation of the list is safe at the state where it runs. -/
def opsSafe (db : DB) : List Op → Prop
  | [] => True
  | op :: rest =>
    opSafe db op ∧
    match applyOp db op with
    | some db1 => opsSafe db1 rest
    | none => True

/-! The §4.3 next-due computation as the specification words it. -/

/-- Next-due date per the spec: the anchor (`last_processed`, else
`start_date`) advanced by `interval` units of `frequency`. -/
def specNextDue (r : RecurringRule) : Date :=
  let base := r.last_processed.getD r.start_date
  match r.frequency with
  | Frequency.daily => addDays base r.interval
  | Frequency.weekly => addDays base (r.interval * 7)
  | Frequency.monthly => addMonths base r.interval
  | Frequency.yearly => addYears base r.interval

/-- The rule is Ended when the next-due date exceeds a set `end_date`. -/
def ruleEnded (r : RecurringRule) : Bool :=
  match r.end_date with
  | some e => dateLt e (specNextDue r)
  | none => false

/-- Decidable equality of results. -/
instance {e a : Type} [DecidableEq e] [DecidableEq a] : DecidableEq (Except e a) := fun x y =>
  match x, y with
  | Except.error u, Except.error v => decidable_of_iff (u = v) (by simp)
  | Except.error _, Except.ok _ => Decidable.isFalse fun hc => Except.noConfusion hc
  | Except.ok _, Except.error _ => Decidable.isFalse fun hc => Except.noConfusion hc
  | Except.ok u, Except.ok v => decidable_of_iff (u = v) (by simp)

/-- Decidability of the invariant on concrete stores. -/
instance (db : DB) : Decidable (balanceInvariant db) := by
  unfold balanceInvariant
  infer_instance

/-- Decidability of the spec-worded invariant on concrete stores. -/
instance (db : DB) : Decidable (specBalanceInvariant db) := by
  unfold specBalanceInvariant
  infer_instance

/-- Decidability of well-formedness on concrete stores. -/
instance (db : DB) : Decidable (wellFormed db) := by
  unfold wellFormed
  infer_instance

/-- Decidability of the sign invariant on concrete entries. -/
instance (t : Txn) : Decidable (signOk t) := by
  unfold signOk
  cases t.type <;> infer_instance

/-! Concrete fixtures used to evaluate the claims on explicit inputs. -/

/-- A checking account with balance 100. -/
def accA : Account :=
  { id := 1, user_id := 1, type := AccountType.checking, currency := "USD",
    opening_balance := 100, current_balance := 100, deleted := false }

/-- A savings account with balance 50. -/
def accB : Account :=
  { id := 2, user_id := 1, type := AccountType.savings, currency := "USD",
    opening_balance := 50, current_balance := 50, deleted := false }

/-- A loan (debt-category) account with balance 0. -/
def accLoan : Account :=
  { id := 3, user_id := 1, type := AccountType.loan, currency := "USD",
    opening_balance := 0, current_balance := 0, deleted := false }

/-- Store with the three example accounts and an empty ledger. -/
def db0 : DB := { accounts := [accA, accB, accLoan], transactions := [], categories := [] }

/-- Income of 50 posted to the loan account. -/
def inputLoanIncome : TxnInput :=
  { type := TxType.income, accountId := some 3, amount := 50, currency := some "USD" }

/-- An existing income entry of 50 on account 1. -/
def txn10 : Txn :=
  { id := 10, user_id := 1, type := TxType.income, account_id := some 1,
    amount := 50, currency := "USD", deleted := false }

/-- Account 1 as it stands after `txn10` was posted. -/
def accA150 : Account := { accA with current_balance := 150 }

/-- Store holding `txn10` with its effect applied to account 1. -/
def dbC3 : DB := { accounts := [accA150, accB], transactions := [txn10], categories := [] }

/-- Patch that only sets a category that does not exist. -/
def patchBadCat : TxnPatch := { categoryId := some 99 }

/-- The empty patch (an update that changes nothing). -/
def patchNone : TxnPatch := {}

/-- Valid income entry for the bulk example. -/
def bulkE1 : TxnInput :=
  { type := TxType.income, accountId := some 1, amount := 10, currency := some "USD" }

/-- Invalid middle entry: its account does not exist. -/
def bulkE2 : TxnInput :=
  { type := TxType.expense, accountId := some 99, amount := 5, currency := some "USD" }

/-- Valid expense entry for the bulk example. -/
def bulkE3 : TxnInput :=
  { type := TxType.expense, accountId := some 1, amount := 20, currency := some "USD" }

/-- Transfer of 30 from account 1 to account 2. -/
def transfer30 : TxnInput :=
  { type := TxType.transfer, fromAccountId := some 1, toAccountId := some 2, amount := 30 }

/-- The §8 example recurring rule: monthly, interval 1, starting 2025-01-15,
never processed. -/
def ruleMonthly : RecurringRule :=
  { is_active := true, frequency := Frequency.monthly, interval := 1,
    start_date := { year := 2025, month := 1, day := 15 } }

/-- The §8 example evaluation day 2025-02-20. -/
def feb20 : Date := { year := 2025, month := 2, day := 20 }

/-- Category A (expense) with no parent. -/
def catA : Category := { id := 1, user_id := 1, type := CatType.expense }

/-- Category B (expense) whose parent is A. -/
def catB : Category := { id := 2, user_id := 1, type := CatType.expense, parent_id := some 1 }

/-- The two-category store of the A→B→A cycle example. -/
def catsAB : List Category := [catA, catB]

/-- Patch making B the parent of A (which would close the cycle). -/
def patchParentB : CatPatch := { parent_id := some (some 2) }

/-- Income posted without a currency field. -/
def inputNoCurrency : TxnInput :=
  { type := TxType.income, accountId := some 1, amount := 25 }

/-- Income posted with a negative raw amount (sign normalization example). -/
def inputNegIncome : TxnInput :=
  { type := TxType.income, accountId := some 1, amount := -7 }

/-- Operation sequence used to exercise the balance invariant end to end. -/
def opsExample : List Op :=
  [Op.create 1 { type := TxType.income, accountId := some 1, amount := 40 },
   Op.create 1 transfer30,
   Op.update 1 1 { amount := some 15 },
   Op.del 1 2]

/-! Helper lemmas about the embedded store operations. -/

theorem find?_eq_some_of_unique {α : Type} (key : α → Nat) {l : List α}
    (hn : (l.map key).Nodup) {a : α} (ha : a ∈ l) (p : α → Bool) (hpa : p a = true)
    (hkey : ∀ x, p x = true → key x = key a) : l.find? p = some a := by
  induction l with
  | nil => cases ha
  | cons b t ih =>
    rw [List.map_cons, List.nodup_cons] at hn
    by_cases hb : p b = true
    · have hkb : key b = key a := hkey b hb
      have hab : a = b := by
        rcases List.mem_cons.mp ha with h | h
        · exact h
        · exact absurd (hkb ▸ List.mem_map_of_mem key h) hn.1
      rw [List.find?_cons_of_pos _ hb, hab]
    · have hat : a ∈ t := by
        rcases List.mem_cons.mp ha with h | h
        · exact absurd (h ▸ hpa) hb
        · exact h
      rw [List.find?_cons_of_neg _ hb]
      exact ih hn.2 hat

theorem findAccount_spec {db : DB} {uid accId : Nat} {a : Account}
    (h : findAccount db uid accId = some a) :
    a ∈ db.accounts ∧ a.id = accId ∧ a.user_id = uid ∧ a.deleted = false := by
  refine ⟨List.mem_of_find?_eq_some h, ?_⟩
  have hp := List.find?_some h
  simp only [Bool.and_eq_true, beq_iff_eq, Bool.not_eq_true'] at hp
  exact ⟨hp.1.1, hp.1.2, hp.2⟩

theorem findAccountById_spec {db : DB} {accId : Nat} {a : Account}
    (h : findAccountById db accId = some a) : a ∈ db.accounts ∧ a.id = accId := by
  refine ⟨List.mem_of_find?_eq_some h, ?_⟩
  have hp := List.find?_some h
  simpa using hp

theorem findTxn_spec {db : DB} {uid txId : Nat} {t : Txn}
    (h : findTxn db uid txId = some t) :
    t ∈ db.transactions ∧ t.id = txId ∧ t.user_id = uid ∧ t.deleted = false := by
  refine ⟨List.mem_of_find?_eq_some h, ?_⟩
  have hp := List.find?_some h
  simp only [Bool.and_eq_true, beq_iff_eq, Bool.not_eq_true'] at hp
  exact ⟨hp.1.1, hp.1.2, hp.2⟩

theorem findAccountById_eq_of_mem {db : DB} (hn : (db.accounts.map (·.id)).Nodup)
    {a : Account} (ha : a ∈ db.accounts) {accId : Nat} (hid : a.id = accId) :
    findAccountById db accId = some a := by
  refine find?_eq_some_of_unique (·.id) hn ha _ ?_ ?_
  · simpa using hid
  · intro x hx
    simp only [beq_iff_eq] at hx
    show x.id = a.id
    rw [hx, hid]

theorem findAccount_eq_of_mem {db : DB} (hn : (db.accounts.map (·.id)).Nodup)
    {a : Account} (ha : a ∈ db.accounts) {uid accId : Nat} (hid : a.id = accId)
    (huid : a.user_id = uid) (hdel : a.deleted = false) :
    findAccount db uid accId = some a := by
  refine find?_eq_some_of_unique (·.id) hn ha _ ?_ ?_
  · simp [hid, huid, hdel]
  · intro x hx
    simp only [Bool.and_eq_true, beq_iff_eq] at hx
    show x.id = a.id
    rw [hx.1.1, hid]

theorem writeBal_id (accId : Nat) (v : Int) (a : Account) : (writeBal accId v a).id = a.id := by
  unfold writeBal
  by_cases h : a.id == accId <;> simp [h]

theorem writeBal_user_id (accId : Nat) (v : Int) (a : Account) :
    (writeBal accId v a).user_id = a.user_id := by
  unfold writeBal
  by_cases h : a.id == accId <;> simp [h]

theorem writeBal_deleted (accId : Nat) (v : Int) (a : Account) :
    (writeBal accId v a).deleted = a.deleted := by
  unfold writeBal
  by_cases h : a.id == accId <;> simp [h]

theorem writeBal_opening (accId : Nat) (v : Int) (a : Account) :
    (writeBal accId v a).opening_balance = a.opening_balance := by
  unfold writeBal
  by_cases h : a.id == accId <;> simp [h]

theorem writeBal_type (accId : Nat) (v : Int) (a : Account) :
    (writeBal accId v a).type = a.type := by
  unfold writeBal
  by_cases h : a.id == accId <;> simp [h]

theorem writeBal_currency (accId : Nat) (v : Int) (a : Account) :
    (writeBal accId v a).currency = a.currency := by
  unfold writeBal
  by_cases h : a.id == accId <;> simp [h]

theorem writeBal_of_ne {accId : Nat} (v : Int) {a : Account} (h : a.id ≠ accId) :
    writeBal accId v a = a := by
  simp [writeBal, h]

theorem writeBal_of_eq {accId : Nat} (v : Int) {a : Account} (h : a.id = accId) :
    writeBal accId v a = { a with current_balance := v } := by
  simp [writeBal, h]

theorem setBalance_transactions (db : DB) (accId : Nat) (v : Int) :
    (setBalance db accId v).transactions = db.transactions := rfl

theorem setBalance_categories (db : DB) (accId : Nat) (v : Int) :
    (setBalance db accId v).categories = db.categories := rfl

theorem setBalance_accounts (db : DB) (accId : Nat) (v : Int) :
    (setBalance db accId v).accounts = db.accounts.map (writeBal accId v) := rfl

theorem replaceTxn_accounts (db : DB) (txId : Nat) (t : Txn) :
    (replaceTxn db txId t).accounts = db.accounts := rfl

theorem markTxnDeleted_accounts (db : DB) (txId : Nat) :
    (markTxnDeleted db txId).accounts = db.accounts := rfl

theorem findAccountById_setBalance (db : DB) (i : Nat) (v : Int) (j : Nat) :
    findAccountById (setBalance db i v) j = (findAccountById db j).map (writeBal i v) := by
  unfold findAccountById
  rw [setBalance_accounts, List.find?_map]
  have hp : ((fun a : Account => a.id == j) ∘ writeBal i v) = fun a : Account => a.id == j := by
    funext a
    simp [Function.comp, writeBal_id]
  rw [hp]

theorem findAccount_setBalance (db : DB) (i : Nat) (v : Int) (uid j : Nat) :
    findAccount (setBalance db i v) uid j = (findAccount db uid j).map (writeBal i v) := by
  unfold findAccount
  rw [setBalance_accounts, List.find?_map]
  have hp : ((fun a : Account => a.id == j && a.user_id == uid && !a.deleted) ∘ writeBal i v)
      = fun a : Account => a.id == j && a.user_id == uid && !a.deleted := by
    funext a
    simp [Function.comp, writeBal_id, writeBal_user_id, writeBal_deleted]
  rw [hp]

theorem setBalance_ids (db : DB) (i : Nat) (v : Int) :
    ((setBalance db i v).accounts).map (·.id) = db.accounts.map (·.id) := by
  rw [setBalance_accounts, List.map_map]
  exact List.map_congr_left fun a _ => writeBal_id i v a

/-- Deltas of a batch with one appended entry. -/
theorem sumDeltas_append (ts : List Txn) (t : Txn) (i : Nat) :
    sumDeltas (ts ++ [t]) i = sumDeltas ts i + signedDelta t i := by
  simp [sumDeltas]

theorem sumDeltas_cons (t : Txn) (ts : List Txn) (i : Nat) :
    sumDeltas (t :: ts) i = signedDelta t i + sumDeltas ts i := by
  simp [sumDeltas]

theorem map_updateAt_of_not_mem {ts : List Txn} {txId : Nat}
    (h : txId ∉ ts.map (·.id)) (g : Txn → Txn) :
    ts.map (fun u => if u.id == txId then g u else u) = ts := by
  induction ts with
  | nil => rfl
  | cons u rest ih =>
    rw [List.map_cons, List.mem_cons] at h
    push_neg at h
    have hne : ¬((u.id == txId) = true) := by
      simp only [beq_iff_eq]
      exact fun hc => h.1 hc.symm
    rw [List.map_cons, ih h.2, if_neg hne]

/-- Effect of the row-targeted transaction update on the delta sum: with
unique ids, only the matched row changes. -/
theorem sumDeltas_updateAt {ts : List Txn} (hn : (ts.map (·.id)).Nodup) {old : Txn}
    (hmem : old ∈ ts) {txId : Nat} (hid : old.id = txId) (g : Txn → Txn) (i : Nat) :
    sumDeltas (ts.map fun u => if u.id == txId then g u else u) i
      = sumDeltas ts i - signedDelta old i + signedDelta (g old) i := by
  induction ts with
  | nil => cases hmem
  | cons u rest ih =>
    rw [List.map_cons, List.nodup_cons] at hn
    by_cases hu : u.id = txId
    · have hold : old = u := by
        rcases List.mem_cons.mp hmem with h | h
        · exact h
        · exfalso
          have h1 : old.id ∈ rest.map (·.id) := List.mem_map_of_mem (·.id) h
          rw [hid, ← hu] at h1
          exact hn.1 h1
      have hnot : txId ∉ rest.map (·.id) := by
        rw [← hu]
        exact hn.1
      have hbeq : (u.id == txId) = true := beq_iff_eq.mpr hu
      rw [List.map_cons, map_updateAt_of_not_mem hnot g, if_pos hbeq, hold,
        sumDeltas_cons, sumDeltas_cons]
      ring
    · have hold : old ∈ rest := by
        rcases List.mem_cons.mp hmem with h | h
        · exact absurd (h ▸ hid) hu
        · exact h
      have hne : ¬((u.id == txId) = true) := by
        simp [hu]
      rw [List.map_cons, if_neg hne, sumDeltas_cons, sumDeltas_cons, ih hn.2 hold]
      ring

/-- Soft-deleting an entry zeroes its delta. -/
theorem signedDelta_markDeleted (t : Txn) (i : Nat) :
    signedDelta { t with deleted := true } i = 0 := by
  simp [signedDelta]

/-- Ids of the transactions table are unchanged by a row-targeted update that
keeps the matched row's id. -/
theorem map_updateAt_ids {txId : Nat} {g : Txn → Txn}
    (hg : ∀ u : Txn, u.id = txId → (g u).id = u.id) (ts : List Txn) :
    (ts.map fun u => if u.id == txId then g u else u).map (·.id) = ts.map (·.id) := by
  rw [List.map_map]
  refine List.map_congr_left fun u _ => ?_
  simp only [Function.comp_apply]
  by_cases hu : u.id = txId
  · rw [if_pos (beq_iff_eq.mpr hu)]
    exact hg u hu
  · rw [if_neg (by simp [hu])]

theorem adjusted_zero (l : List Account) : adjusted l l fun _ => 0 := by
  unfold adjusted
  refine Eq.symm ?_
  have h : (l.map fun a => { a with current_balance := a.current_balance + 0 }) = l.map id :=
    List.map_congr_left fun a _ => by simp
  rw [h, List.map_id]

theorem adjusted_congr {l l' : List Account} {f g : Nat → Int} (h : ∀ i, f i = g i)
    (hadj : adjusted l l' f) : adjusted l l' g := by
  unfold adjusted at hadj ⊢
  rw [hadj]
  exact List.map_congr_left fun a _ => by rw [h a.id]

theorem adjusted_comp {l l1 l2 : List Account} {f g : Nat → Int}
    (h1 : adjusted l l1 f) (h2 : adjusted l1 l2 g) :
    adjusted l l2 fun i => f i + g i := by
  unfold adjusted at h1 h2 ⊢
  rw [h2, h1, List.map_map]
  exact List.map_congr_left fun a _ => by simp [Function.comp, add_assoc]

theorem adjusted_ids {l l' : List Account} {f : Nat → Int} (h : adjusted l l' f) :
    l'.map (·.id) = l.map (·.id) := by
  rw [h, List.map_map]
  exact List.map_congr_left fun a _ => rfl

/-- A `setBalance` whose written value was read from the same store is a
single-account additive adjustment. -/
theorem adjusted_setBalance {db : DB} (hn : (db.accounts.map (·.id)).Nodup)
    {account : Account} (hmem : account ∈ db.accounts) {i : Nat} (hid : account.id = i)
    (c : Int) {v : Int} (hv : v = account.current_balance + c) :
    adjusted db.accounts (setBalance db i v).accounts
      fun j => if j = i then c else 0 := by
  subst hv
  rw [setBalance_accounts]
  refine List.map_congr_left fun a ha => ?_
  by_cases hai : a.id = i
  · have haa : a = account := List.inj_on_of_nodup_map hn ha hmem (by rw [hai, hid])
    rw [writeBal_of_eq _ hai]
    subst haa
    simp [hai]
  · rw [writeBal_of_ne _ hai]
    simp [hai]

/-- Ids of the accounts table survive `revertTransactionBalance`. -/
theorem revert_ids (db : DB) (t : Txn) :
    (revertTransactionBalance db t).accounts.map (·.id) = db.accounts.map (·.id) := by
  unfold revertTransactionBalance
  split
  · split
    · split
      · rw [setBalance_ids, setBalance_ids]
      · rfl
    · rfl
  · split
    · split
      · exact setBalance_ids _ _ _
      · rfl
    · rfl

/-- The balance invariant transports across a step that adjusts every balance
by exactly the change of the entry-delta sum. -/
theorem balanceInvariant_of_adjusted {db db' : DB} {f : Nat → Int}
    (hadj : adjusted db.accounts db'.accounts f)
    (hsum : ∀ i, sumDeltas db'.transactions i = sumDeltas db.transactions i + f i)
    (hinv : balanceInvariant db) : balanceInvariant db' := by
  intro b hb
  rw [hadj] at hb
  obtain ⟨a, ha, rfl⟩ := List.mem_map.mp hb
  show a.current_balance + f a.id = a.opening_balance + sumDeltas db'.transactions a.id
  rw [hsum a.id, hinv a ha]
  ring

/-- Applying `revertTransactionBalance` on a live entry with resolvable references
subtracts the entry's signed delta from every account. -/
theorem revert_adjusted {db : DB} (hn : (db.accounts.map (·.id)).Nodup) {t : Txn}
    (hdel : t.deleted = false) (hrefs : refsOk db.accounts t = true) :
    adjusted db.accounts (revertTransactionBalance db t).accounts
      fun i => -(signedDelta t i) := by
  by_cases htype : t.type = TxType.transfer
  · rw [refsOk, if_pos htype] at hrefs
    match hf : t.from_account_id, ht : t.to_account_id with
    | some fid, none => rw [hf, ht] at hrefs; simp at hrefs
    | none, some tid => rw [hf, ht] at hrefs; simp at hrefs
    | none, none => rw [hf, ht] at hrefs; simp at hrefs
    | some fid, some tid =>
      rw [hf, ht] at hrefs
      simp only [Bool.and_eq_true, bne_iff_ne, ne_eq, List.any_eq_true, beq_iff_eq] at hrefs
      obtain ⟨⟨hne, af, hafm, hafid⟩, ag, hagm, hagid⟩ := hrefs
      have hfindf : findAccountById db fid = some af := findAccountById_eq_of_mem hn hafm hafid
      have hfindt : findAccountById db tid = some ag := findAccountById_eq_of_mem hn hagm hagid
      have hred : revertTransactionBalance db t =
          setBalance (setBalance db fid (af.current_balance + t.amount)) tid
            (ag.current_balance - t.amount) := by
        unfold revertTransactionBalance
        rw [if_pos htype, hf, ht]
        simp only [hfindf, hfindt]
      rw [hred]
      have h1 : adjusted db.accounts
          (setBalance db fid (af.current_balance + t.amount)).accounts
          (fun j => if j = fid then t.amount else 0) :=
        adjusted_setBalance hn hafm hafid t.amount rfl
      have hagm1 : ag ∈ (setBalance db fid (af.current_balance + t.amount)).accounts := by
        rw [setBalance_accounts]
        have : writeBal fid (af.current_balance + t.amount) ag = ag :=
          writeBal_of_ne _ (by rw [hagid]; exact fun hc => hne hc.symm)
        exact this ▸ List.mem_map_of_mem _ hagm
      have hn1 : (((setBalance db fid (af.current_balance + t.amount)).accounts).map (·.id)).Nodup := by
        rw [setBalance_ids]
        exact hn
      have h2 : adjusted (setBalance db fid (af.current_balance + t.amount)).accounts
          (setBalance (setBalance db fid (af.current_balance + t.amount)) tid
            (ag.current_balance - t.amount)).accounts
          (fun j => if j = tid then -t.amount else 0) :=
        adjusted_setBalance hn1 hagm1 hagid (-t.amount) (by ring)
      refine adjusted_congr ?_ (adjusted_comp h1 h2)
      intro i
      simp only [signedDelta, hdel, Bool.false_eq_true, if_false, htype, hf, ht,
        Option.some.injEq]
      by_cases h1i : fid = i <;> by_cases h2i : tid = i <;>
        simp [h1i, h2i, eq_comm]
  · rw [refsOk, if_neg htype] at hrefs
    match ha : t.account_id with
    | some aid =>
      rw [ha] at hrefs
      simp only [List.any_eq_true, beq_iff_eq] at hrefs
      obtain ⟨aa, haam, haaid⟩ := hrefs
      have hfind : findAccountById db aid = some aa := findAccountById_eq_of_mem hn haam haaid
      have hred : revertTransactionBalance db t =
          setBalance db aid (aa.current_balance - t.amount) := by
        unfold revertTransactionBalance
        rw [if_neg htype, ha]
        simp only [hfind]
      rw [hred]
      refine adjusted_congr ?_ (adjusted_setBalance hn haam haaid (-t.amount) (by ring))
      intro i
      simp only [signedDelta, hdel, Bool.false_eq_true, if_false, ha, Option.some.injEq]
      match t.type, htype with
      | TxType.income, _ =>
        by_cases hi : aid = i <;> simp [hi, eq_comm]
      | TxType.expense, _ =>
        by_cases hi : aid = i <;> simp [hi, eq_comm]
    | none =>
      have hred : revertTransactionBalance db t = db := by
        unfold revertTransactionBalance
        rw [if_neg htype, ha]
      rw [hred]
      refine adjusted_congr ?_ (adjusted_zero db.accounts)
      intro i
      simp only [signedDelta, hdel, Bool.false_eq_true, if_false, ha]
      match t.type, htype with
      | TxType.income, _ => simp
      | TxType.expense, _ => simp

theorem mem_le_foldr_max {l : List Nat} {x : Nat} (hx : x ∈ l) : x ≤ l.foldr max 0 := by
  induction l with
  | nil => cases hx
  | cons a tl ih =>
    rcases List.mem_cons.mp hx with h | h
    · subst h
      exact le_max_left _ _
    · exact le_trans (ih h) (le_max_right _ _)

theorem freshTxnId_not_mem (db : DB) : freshTxnId db ∉ db.transactions.map (·.id) := by
  intro hmem
  have h := mem_le_foldr_max hmem
  simp only [freshTxnId] at hmem h
  omega

theorem nodup_append_singleton {l : List Nat} (hn : l.Nodup) {x : Nat} (hx : x ∉ l) :
    (l ++ [x]).Nodup := by
  rw [List.nodup_append]
  refine ⟨hn, List.nodup_singleton x, ?_⟩
  intro a ha hmem
  rw [List.mem_singleton] at hmem
  exact hx (hmem ▸ ha)

theorem any_id_of_exists {l : List Account} {x : Nat} (h : ∃ a ∈ l, a.id = x) :
    l.any (fun a => a.id == x) = true := by
  obtain ⟨a, ha, hid⟩ := h
  exact List.any_eq_true.mpr ⟨a, ha, beq_iff_eq.mpr hid⟩

theorem any_map_general {α β : Type} (f : α → β) (l : List α) (p : β → Bool) :
    (l.map f).any p = l.any fun a => p (f a) := by
  induction l with
  | nil => rfl
  | cons a tl ih => simp [List.any_cons, ih]

/-- The reference check only inspects account ids, so it transports along any
step that keeps the id column. -/
theorem refsOk_of_ids_eq {l l' : List Account} (h : l'.map (·.id) = l.map (·.id)) (t : Txn) :
    refsOk l' t = refsOk l t := by
  have hany : ∀ x : Nat, l'.any (fun a => a.id == x) = l.any (fun a => a.id == x) := by
    intro x
    have e1 : (l'.map (·.id)).any (fun i => i == x) = l'.any (fun a => a.id == x) :=
      any_map_general _ _ _
    have e2 : (l.map (·.id)).any (fun i => i == x) = l.any (fun a => a.id == x) :=
      any_map_general _ _ _
    rw [← e1, ← e2, h]
  unfold refsOk
  split
  · cases t.from_account_id <;> cases t.to_account_id <;>
      first
      | rfl
      | simp only [hany]
  · cases t.account_id <;>
      first
      | rfl
      | simp only [hany]


/-- Inserting a transfer row and applying its two balance writes keeps the
store well-formed and the invariant intact. -/
theorem insert_transfer_preserves {db : DB}
    (hnA : (db.accounts.map (·.id)).Nodup) (hnT : (db.transactions.map (·.id)).Nodup)
    (hrefs : ∀ u ∈ db.transactions, u.deleted = false → refsOk db.accounts u = true)
    (hInv : balanceInvariant db)
    {fid tid : Nat} {fromAccount toAccount : Account}
    (hfw : fromAccount ∈ db.accounts) (hfid : fromAccount.id = fid)
    (htw : toAccount ∈ db.accounts) (htid : toAccount.id = tid)
    (hne : fid ≠ tid) (amt : Int) {t0 : Txn}
    (h1 : t0.type = TxType.transfer) (h2 : t0.from_account_id = some fid)
    (h3 : t0.to_account_id = some tid) (h4 : t0.amount = amt)
    (h5 : t0.deleted = false) (h6 : t0.id = freshTxnId db) :
    wellFormed
      (setBalance (setBalance { db with transactions := db.transactions ++ [t0] } fid
        (fromAccount.current_balance - amt)) tid (toAccount.current_balance + amt)) ∧
    balanceInvariant
      (setBalance (setBalance { db with transactions := db.transactions ++ [t0] } fid
        (fromAccount.current_balance - amt)) tid (toAccount.current_balance + amt)) := by
  have hne' : toAccount.id ≠ fid := by
    rw [htid]
    exact fun hc => hne hc.symm
  constructor
  · refine ⟨?_, ?_, ?_⟩
    · rw [setBalance_ids, setBalance_ids]
      exact hnA
    · rw [setBalance_transactions, setBalance_transactions]
      show ((db.transactions ++ [t0]).map (·.id)).Nodup
      rw [List.map_append]
      show (List.map (·.id) db.transactions ++ [t0.id]).Nodup
      refine nodup_append_singleton hnT ?_
      rw [h6]
      exact freshTxnId_not_mem db
    · intro u hu hudel
      rw [setBalance_transactions, setBalance_transactions] at hu
      have hids : ((setBalance (setBalance { db with transactions := db.transactions ++ [t0] }
          fid (fromAccount.current_balance - amt)) tid
          (toAccount.current_balance + amt)).accounts.map (·.id)) = db.accounts.map (·.id) := by
        rw [setBalance_ids, setBalance_ids]
      rw [refsOk_of_ids_eq hids u]
      rcases List.mem_append.mp hu with hmem | hmem
      · exact hrefs u hmem hudel
      · rw [List.mem_singleton] at hmem
        subst hmem
        have e1 := any_id_of_exists ⟨fromAccount, hfw, hfid⟩
        have e2 := any_id_of_exists ⟨toAccount, htw, htid⟩
        simp [refsOk, h1, h2, h3, hne, e1, e2]
  · have hadj1 : adjusted db.accounts
        ((setBalance { db with transactions := db.transactions ++ [t0] } fid
          (fromAccount.current_balance - amt)).accounts)
        (fun j => if j = fid then -amt else 0) :=
      adjusted_setBalance hnA hfw hfid (-amt) (by ring)
    have hmem2 : toAccount ∈ (setBalance { db with transactions := db.transactions ++ [t0] }
        fid (fromAccount.current_balance - amt)).accounts := by
      rw [setBalance_accounts]
      have hw : writeBal fid (fromAccount.current_balance - amt) toAccount = toAccount :=
        writeBal_of_ne _ hne'
      exact hw ▸ List.mem_map_of_mem _ htw
    have hn2 : (((setBalance { db with transactions := db.transactions ++ [t0] } fid
        (fromAccount.current_balance - amt)).accounts).map (·.id)).Nodup := by
      rw [setBalance_ids]
      exact hnA
    have hadj2 := adjusted_setBalance hn2 hmem2 htid amt rfl
    have hadj := adjusted_comp hadj1 hadj2
    refine balanceInvariant_of_adjusted hadj ?_ hInv
    intro i
    rw [setBalance_transactions, setBalance_transactions]
    show sumDeltas (db.transactions ++ [t0]) i = _
    rw [sumDeltas_append]
    congr 1
    simp only [signedDelta, h5, Bool.false_eq_true, if_false, h1, h2, h3, h4,
      Option.some.injEq]
    by_cases h1i : fid = i <;> by_cases h2i : tid = i <;> simp [h1i, h2i, eq_comm]

/-- Inserting an income/expense row and applying its balance write keeps the
store well-formed and the invariant intact. -/
theorem insert_income_preserves {db : DB}
    (hnA : (db.accounts.map (·.id)).Nodup) (hnT : (db.transactions.map (·.id)).Nodup)
    (hrefs : ∀ u ∈ db.transactions, u.deleted = false → refsOk db.accounts u = true)
    (hInv : balanceInvariant db)
    {accId : Nat} {account : Account}
    (haw : account ∈ db.accounts) (haid : account.id = accId) (txAmt : Int) {t0 : Txn}
    (h1 : t0.type ≠ TxType.transfer) (h2 : t0.account_id = some accId)
    (h4 : t0.amount = txAmt) (h5 : t0.deleted = false) (h6 : t0.id = freshTxnId db) :
    wellFormed
      (setBalance { db with transactions := db.transactions ++ [t0] } accId
        (account.current_balance + txAmt)) ∧
    balanceInvariant
      (setBalance { db with transactions := db.transactions ++ [t0] } accId
        (account.current_balance + txAmt)) := by
  constructor
  · refine ⟨?_, ?_, ?_⟩
    · rw [setBalance_ids]
      exact hnA
    · rw [setBalance_transactions]
      show ((db.transactions ++ [t0]).map (·.id)).Nodup
      rw [List.map_append]
      show (List.map (·.id) db.transactions ++ [t0.id]).Nodup
      refine nodup_append_singleton hnT ?_
      rw [h6]
      exact freshTxnId_not_mem db
    · intro u hu hudel
      rw [setBalance_transactions] at hu
      have hids : ((setBalance { db with transactions := db.transactions ++ [t0] } accId
          (account.current_balance + txAmt)).accounts.map (·.id)) = db.accounts.map (·.id) := by
        rw [setBalance_ids]
      rw [refsOk_of_ids_eq hids u]
      rcases List.mem_append.mp hu with hmem | hmem
      · exact hrefs u hmem hudel
      · rw [List.mem_singleton] at hmem
        subst hmem
        have e1 := any_id_of_exists ⟨account, haw, haid⟩
        simp [refsOk, h1, h2, e1]
  · have hadj1 := adjusted_setBalance hnA haw haid txAmt rfl
    refine balanceInvariant_of_adjusted hadj1 ?_ hInv
    intro i
    rw [setBalance_transactions]
    show sumDeltas (db.transactions ++ [t0]) i = _
    rw [sumDeltas_append]
    congr 1
    match h1' : t0.type, h1 with
    | TxType.income, _ =>
      simp only [signedDelta, h5, Bool.false_eq_true, if_false, h1', h2, h4,
        Option.some.injEq]
      by_cases hi : accId = i <;> simp [hi, eq_comm]
    | TxType.expense, _ =>
      simp only [signedDelta, h5, Bool.false_eq_true, if_false, h1', h2, h4,
        Option.some.injEq]
      by_cases hi : accId = i <;> simp [hi, eq_comm]

/-- Successful creation keeps the store well-formed and the invariant intact. -/
theorem createTransaction_ok_preserves {db : DB} {uid : Nat} {d : TxnInput} {t : Txn}
    {db' : DB} (hWF : wellFormed db) (hInv : balanceInvariant db)
    (h : createTransaction db uid d = (Except.ok t, db')) :
    wellFormed db' ∧ balanceInvariant db' := by
  obtain ⟨hnA, hnT, hrefs⟩ := hWF
  unfold createTransaction at h
  split at h
  · split at h
    · split at h
      · simp at h
      · split at h
        · simp at h
        · split at h
          · simp at h
          · split at h
            · simp at h
            · rename_i htype x1 x2 fid tid hfrom hto hne x3 fromAccount hfindf x4
                toAccount hfindt hcur
              simp only [Prod.mk.injEq] at h
              obtain ⟨ht', hdb⟩ := h
              subst hdb
              have hfw := findAccount_spec hfindf
              have htw := findAccount_spec hfindt
              exact insert_transfer_preserves hnA hnT hrefs hInv hfw.1 hfw.2.1 htw.1
                htw.2.1 hne |d.amount| rfl rfl rfl rfl rfl rfl
    · simp at h
  · split at h
    · simp at h
    · split at h
      · simp at h
      · split at h
        · simp at h
        · split at h
          · simp at h
          · rename_i hneg xacc accId haccid x3 account hfinda hcurok hcatok
            simp only [Prod.mk.injEq] at h
            obtain ⟨ht', hdb⟩ := h
            subst hdb
            have haw := findAccount_spec hfinda
            exact insert_income_preserves hnA hnT hrefs hInv haw.1 haw.2.1
              (if d.type = TxType.expense then -|d.amount| else |d.amount|) hneg rfl rfl
              rfl rfl

theorem revert_transactions (db : DB) (t : Txn) :
    (revertTransactionBalance db t).transactions = db.transactions := by
  unfold revertTransactionBalance
  split
  · split
    · split
      · rw [setBalance_transactions, setBalance_transactions]
      · rfl
    · rfl
  · split
    · split
      · exact setBalance_transactions _ _ _
      · rfl
    · rfl

theorem revert_categories (db : DB) (t : Txn) :
    (revertTransactionBalance db t).categories = db.categories := by
  unfold revertTransactionBalance
  split
  · split
    · split
      · rw [setBalance_categories, setBalance_categories]
      · rfl
    · rfl
  · split
    · split
      · exact setBalance_categories _ _ _
      · rfl
    · rfl

theorem replaceTxn_categories (db : DB) (txId : Nat) (t : Txn) :
    (replaceTxn db txId t).categories = db.categories := rfl

/-- Successful deletion keeps the store well-formed and the invariant intact. -/
theorem deleteTransaction_ok_preserves {db : DB} {uid txId : Nat} {db' : DB}
    (hWF : wellFormed db) (hInv : balanceInvariant db)
    (h : deleteTransaction db uid txId = (Except.ok (), db')) :
    wellFormed db' ∧ balanceInvariant db' := by
  obtain ⟨hnA, hnT, hrefs⟩ := hWF
  unfold deleteTransaction at h
  split at h
  · simp at h
  · rename_i xf t hfind
    simp only [Prod.mk.injEq] at h
    obtain ⟨-, hdb⟩ := h
    subst hdb
    have hts := findTxn_spec hfind
    have hrefst := hrefs t hts.1 hts.2.2.2
    have hadj := revert_adjusted hnA hts.2.2.2 hrefst
    constructor
    · refine ⟨?_, ?_, ?_⟩
      · rw [markTxnDeleted_accounts, revert_ids]
        exact hnA
      · show (((revertTransactionBalance db t).transactions.map
            fun u => if u.id == txId then { u with deleted := true } else u).map (·.id)).Nodup
        rw [revert_transactions,
          @map_updateAt_ids txId (fun u => { u with deleted := true }) (fun _ _ => rfl)
            db.transactions]
        exact hnT
      · intro u hu hudel
        have hids : ((markTxnDeleted (revertTransactionBalance db t) txId).accounts.map (·.id))
            = db.accounts.map (·.id) := by
          rw [markTxnDeleted_accounts, revert_ids]
        rw [refsOk_of_ids_eq hids u]
        have hu2 : u ∈ db.transactions.map
            fun v => if v.id == txId then { v with deleted := true } else v := by
          have : (markTxnDeleted (revertTransactionBalance db t) txId).transactions
              = db.transactions.map
                  fun v => if v.id == txId then { v with deleted := true } else v := by
            show ((revertTransactionBalance db t).transactions.map
                fun v => if v.id == txId then { v with deleted := true } else v) = _
            rw [revert_transactions]
          rwa [this] at hu
        obtain ⟨v, hv, hvu⟩ := List.mem_map.mp hu2
        by_cases hvid : v.id = txId
        · rw [if_pos (beq_iff_eq.mpr hvid)] at hvu
          rw [← hvu] at hudel
          simp at hudel
        · rw [if_neg (by simp [hvid])] at hvu
          subst hvu
          exact hrefs v hv hudel
    · refine balanceInvariant_of_adjusted hadj ?_ hInv
      intro i
      show sumDeltas ((revertTransactionBalance db t).transactions.map
          fun u => if u.id == txId then { u with deleted := true } else u) i = _
      rw [revert_transactions,
        sumDeltas_updateAt hnT hts.1 hts.2.1 (fun u => { u with deleted := true }) i,
        signedDelta_markDeleted]
      ring


/-- Re-pointing a transaction to a transfer during update (revert, row update,
two balance writes) keeps the store well-formed and the invariant intact. -/
theorem update_transfer_preserves {db : DB} {uid : Nat}
    (hnA : (db.accounts.map (·.id)).Nodup) (hnT : (db.transactions.map (·.id)).Nodup)
    (hrefs : ∀ u ∈ db.transactions, u.deleted = false → refsOk db.accounts u = true)
    (hInv : balanceInvariant db)
    {oldT : Txn} (holdmem : oldT ∈ db.transactions) {txId : Nat} (holdid : oldT.id = txId)
    (holddel : oldT.deleted = false) (holdrefs : refsOk db.accounts oldT = true)
    {fid tid : Nat} {fromAccount toAccount : Account}
    (hfindf : findAccount (revertTransactionBalance db oldT) uid fid = some fromAccount)
    (hfindt : findAccount (revertTransactionBalance db oldT) uid tid = some toAccount)
    (hne : fid ≠ tid) (amt : Int) {newT : Txn}
    (hn1 : newT.type = TxType.transfer) (hn2 : newT.from_account_id = some fid)
    (hn3 : newT.to_account_id = some tid) (hn4 : newT.amount = amt)
    (hn5 : newT.deleted = false) (hn6 : newT.id = txId) :
    wellFormed
      (setBalance (setBalance (replaceTxn (revertTransactionBalance db oldT) txId newT)
        fid (fromAccount.current_balance - amt)) tid (toAccount.current_balance + amt)) ∧
    balanceInvariant
      (setBalance (setBalance (replaceTxn (revertTransactionBalance db oldT) txId newT)
        fid (fromAccount.current_balance - amt)) tid (toAccount.current_balance + amt)) := by
  have hfw := findAccount_spec hfindf
  have htw := findAccount_spec hfindt
  have hn_mid : (((revertTransactionBalance db oldT).accounts).map (·.id)).Nodup := by
    rw [revert_ids]
    exact hnA
  have hne' : toAccount.id ≠ fid := by
    rw [htw.2.1]
    exact fun hc => hne hc.symm
  have hids_mid : ((setBalance (setBalance (replaceTxn (revertTransactionBalance db oldT)
      txId newT) fid (fromAccount.current_balance - amt)) tid
      (toAccount.current_balance + amt)).accounts.map (·.id))
      = (revertTransactionBalance db oldT).accounts.map (·.id) := by
    rw [setBalance_ids, setBalance_ids, replaceTxn_accounts]
  have hids_db : ((setBalance (setBalance (replaceTxn (revertTransactionBalance db oldT)
      txId newT) fid (fromAccount.current_balance - amt)) tid
      (toAccount.current_balance + amt)).accounts.map (·.id)) = db.accounts.map (·.id) := by
    rw [hids_mid, revert_ids]
  have htxns : (setBalance (setBalance (replaceTxn (revertTransactionBalance db oldT)
      txId newT) fid (fromAccount.current_balance - amt)) tid
      (toAccount.current_balance + amt)).transactions
      = db.transactions.map fun u => if u.id == txId then newT else u := by
    rw [setBalance_transactions, setBalance_transactions]
    show ((revertTransactionBalance db oldT).transactions.map
      fun u => if u.id == txId then newT else u) = _
    rw [revert_transactions]
  constructor
  · refine ⟨?_, ?_, ?_⟩
    · rw [hids_db]
      exact hnA
    · rw [htxns, @map_updateAt_ids txId (fun _ => newT) (fun u hu => by rw [hn6, hu])
        db.transactions]
      exact hnT
    · intro u' hu' hudel
      rw [htxns] at hu'
      rw [refsOk_of_ids_eq hids_mid u']
      obtain ⟨u, hu, hvu⟩ := List.mem_map.mp hu'
      by_cases hvid : u.id = txId
      · rw [if_pos (beq_iff_eq.mpr hvid)] at hvu
        subst hvu
        have e1 := any_id_of_exists ⟨fromAccount, hfw.1, hfw.2.1⟩
        have e2 := any_id_of_exists ⟨toAccount, htw.1, htw.2.1⟩
        simp [refsOk, hn1, hn2, hn3, hne, e1, e2]
      · rw [if_neg (by simp [hvid])] at hvu
        subst hvu
        have hidsrev : (revertTransactionBalance db oldT).accounts.map (·.id)
            = db.accounts.map (·.id) := revert_ids db oldT
        rw [refsOk_of_ids_eq hidsrev u]
        exact hrefs u hu hudel
  · have hadj0 := revert_adjusted hnA holddel holdrefs
    have h1 : adjusted ((replaceTxn (revertTransactionBalance db oldT) txId newT).accounts)
        ((setBalance (replaceTxn (revertTransactionBalance db oldT) txId newT) fid
          (fromAccount.current_balance - amt)).accounts)
        (fun j => if j = fid then -amt else 0) :=
      adjusted_setBalance hn_mid hfw.1 hfw.2.1 (-amt) (by ring)
    have hmem2 : toAccount ∈ (setBalance (replaceTxn (revertTransactionBalance db oldT)
        txId newT) fid (fromAccount.current_balance - amt)).accounts := by
      rw [setBalance_accounts]
      have hw : writeBal fid (fromAccount.current_balance - amt) toAccount = toAccount :=
        writeBal_of_ne _ hne'
      exact hw ▸ List.mem_map_of_mem _ htw.1
    have hn2' : (((setBalance (replaceTxn (revertTransactionBalance db oldT) txId newT) fid
        (fromAccount.current_balance - amt)).accounts).map (·.id)).Nodup := by
      rw [setBalance_ids]
      exact hn_mid
    have h2 := adjusted_setBalance hn2' hmem2 htw.2.1 amt rfl
    have hadj := adjusted_comp (adjusted_comp hadj0 h1) h2
    refine balanceInvariant_of_adjusted hadj ?_ hInv
    intro i
    rw [htxns, sumDeltas_updateAt hnT holdmem holdid (fun _ => newT) i]
    have hdn : signedDelta newT i =
        (if i = fid then -amt else 0) + (if i = tid then amt else 0) := by
      simp only [signedDelta, hn5, Bool.false_eq_true, if_false, hn1, hn2, hn3, hn4,
        Option.some.injEq]
      by_cases h1i : fid = i <;> by_cases h2i : tid = i <;> simp [h1i, h2i, eq_comm]
    rw [hdn]
    ring

/-- Re-pointing a transaction to an income/expense row during update keeps the
store well-formed and the invariant intact. -/
theorem update_income_preserves {db : DB} {uid : Nat}
    (hnA : (db.accounts.map (·.id)).Nodup) (hnT : (db.transactions.map (·.id)).Nodup)
    (hrefs : ∀ u ∈ db.transactions, u.deleted = false → refsOk db.accounts u = true)
    (hInv : balanceInvariant db)
    {oldT : Txn} (holdmem : oldT ∈ db.transactions) {txId : Nat} (holdid : oldT.id = txId)
    (holddel : oldT.deleted = false) (holdrefs : refsOk db.accounts oldT = true)
    {targetId : Nat} {account : Account}
    (hfinda : findAccount (revertTransactionBalance db oldT) uid targetId = some account)
    (txAmt : Int) {newT : Txn}
    (hn1 : newT.type ≠ TxType.transfer) (hn2 : newT.account_id = some targetId)
    (hn4 : newT.amount = txAmt) (hn5 : newT.deleted = false) (hn6 : newT.id = txId) :
    wellFormed
      (setBalance (replaceTxn (revertTransactionBalance db oldT) txId newT)
        targetId (account.current_balance + txAmt)) ∧
    balanceInvariant
      (setBalance (replaceTxn (revertTransactionBalance db oldT) txId newT)
        targetId (account.current_balance + txAmt)) := by
  have haw := findAccount_spec hfinda
  have hn_mid : (((revertTransactionBalance db oldT).accounts).map (·.id)).Nodup := by
    rw [revert_ids]
    exact hnA
  have hids_mid : ((setBalance (replaceTxn (revertTransactionBalance db oldT) txId newT)
      targetId (account.current_balance + txAmt)).accounts.map (·.id))
      = (revertTransactionBalance db oldT).accounts.map (·.id) := by
    rw [setBalance_ids, replaceTxn_accounts]
  have hids_db : ((setBalance (replaceTxn (revertTransactionBalance db oldT) txId newT)
      targetId (account.current_balance + txAmt)).accounts.map (·.id))
      = db.accounts.map (·.id) := by
    rw [hids_mid, revert_ids]
  have htxns : (setBalance (replaceTxn (revertTransactionBalance db oldT) txId newT)
      targetId (account.current_balance + txAmt)).transactions
      = db.transactions.map fun u => if u.id == txId then newT else u := by
    rw [setBalance_transactions]
    show ((revertTransactionBalance db oldT).transactions.map
      fun u => if u.id == txId then newT else u) = _
    rw [revert_transactions]
  constructor
  · refine ⟨?_, ?_, ?_⟩
    · rw [hids_db]
      exact hnA
    · rw [htxns, @map_updateAt_ids txId (fun _ => newT) (fun u hu => by rw [hn6, hu])
        db.transactions]
      exact hnT
    · intro u' hu' hudel
      rw [htxns] at hu'
      rw [refsOk_of_ids_eq hids_mid u']
      obtain ⟨u, hu, hvu⟩ := List.mem_map.mp hu'
      by_cases hvid : u.id = txId
      · rw [if_pos (beq_iff_eq.mpr hvid)] at hvu
        subst hvu
        have e1 := any_id_of_exists ⟨account, haw.1, haw.2.1⟩
        simp [refsOk, hn1, hn2, e1]
      · rw [if_neg (by simp [hvid])] at hvu
        subst hvu
        have hidsrev : (revertTransactionBalance db oldT).accounts.map (·.id)
            = db.accounts.map (·.id) := revert_ids db oldT
        rw [refsOk_of_ids_eq hidsrev u]
        exact hrefs u hu hudel
  · have hadj0 := revert_adjusted hnA holddel holdrefs
    have h1 : adjusted ((replaceTxn (revertTransactionBalance db oldT) txId newT).accounts)
        ((setBalance (replaceTxn (revertTransactionBalance db oldT) txId newT) targetId
          (account.current_balance + txAmt)).accounts)
        (fun j => if j = targetId then txAmt else 0) :=
      adjusted_setBalance hn_mid haw.1 haw.2.1 txAmt rfl
    have hadj := adjusted_comp hadj0 h1
    refine balanceInvariant_of_adjusted hadj ?_ hInv
    intro i
    rw [htxns, sumDeltas_updateAt hnT holdmem holdid (fun _ => newT) i]
    have hdn : signedDelta newT i = if i = targetId then txAmt else 0 := by
      match h1' : newT.type, hn1 with
      | TxType.income, _ =>
        simp only [signedDelta, hn5, Bool.false_eq_true, if_false, h1', hn2, hn4,
          Option.some.injEq]
        by_cases hi : targetId = i <;> simp [hi, eq_comm]
      | TxType.expense, _ =>
        simp only [signedDelta, hn5, Bool.false_eq_true, if_false, h1', hn2, hn4,
          Option.some.injEq]
        by_cases hi : targetId = i <;> simp [hi, eq_comm]
    rw [hdn]
    ring



/-- Successful update (under the two safety conditions) keeps the store
well-formed and the invariant intact. -/
theorem updateTransaction_ok_preserves {db : DB} {uid txId : Nat} {p : TxnPatch}
    {t : Txn} {db' : DB} (hWF : wellFormed db) (hInv : balanceInvariant db)
    (hsafe1 : p.type = some TxType.transfer → p.fromAccountId ≠ p.toAccountId)
    (hsafe2 : match findTxn db uid txId with
              | some u => u.type = TxType.transfer → p.type = some TxType.transfer
              | none => True)
    (h : updateTransaction db uid txId p = (Except.ok t, db')) :
    wellFormed db' ∧ balanceInvariant db' := by
  obtain ⟨hnA, hnT, hrefs⟩ := hWF
  unfold updateTransaction at h
  split at h
  · simp at h
  · rename_i xf oldT hfind
    have hts := findTxn_spec hfind
    have holdrefs := hrefs oldT hts.1 hts.2.2.2
    simp only [] at h
    split at h
    · rename_i hptype
      split at h
      · rename_i x1 x2 fid tid hfrom hto
        split at h
        · rename_i x3 x4 fromAccount toAccount hfindf hfindt
          simp only [Prod.mk.injEq] at h
          obtain ⟨ht', hdb⟩ := h
          subst hdb
          have hne : fid ≠ tid := by
            intro hc
            exact hsafe1 hptype (by rw [hfrom, hto, hc])
          exact update_transfer_preserves hnA hnT hrefs hInv hts.1 hts.2.1 hts.2.2.2
            holdrefs hfindf hfindt hne |jsOrAmount p.amount oldT.amount| rfl rfl rfl rfl
            hts.2.2.2 hts.2.1
        · simp at h
      · simp at h
    · rename_i hptypeneg
      split at h
      · simp at h
      · rename_i xt targetId htarget
        split at h
        · simp at h
        · rename_i xa account hfinda
          split at h
          · simp at h
          · rename_i hcatok
            simp only [Prod.mk.injEq] at h
            obtain ⟨ht', hdb⟩ := h
            subst hdb
            have hneq : (p.type.getD oldT.type) ≠ TxType.transfer := by
              cases hp : p.type with
              | none =>
                simp only [Option.getD]
                intro hc
                rw [hfind] at hsafe2
                have hcontra := hsafe2 hc
                rw [hp] at hcontra
                exact Option.noConfusion hcontra
              | some x =>
                simp only [Option.getD]
                intro hc
                exact hptypeneg (by rw [hp, hc])
            exact update_income_preserves hnA hnT hrefs hInv hts.1 hts.2.1 hts.2.2.2
              holdrefs hfinda _ hneq rfl rfl hts.2.2.2 hts.2.1



/-- One safe, successful operation keeps well-formedness and the invariant. -/
theorem applyOp_preserves {db db' : DB} {op : Op} (hWF : wellFormed db)
    (hInv : balanceInvariant db) (hsafe : opSafe db op) (h : applyOp db op = some db') :
    wellFormed db' ∧ balanceInvariant db' := by
  cases op with
  | create uid d =>
    simp only [applyOp] at h
    split at h
    · rename_i t db1 heq
      injection h with h
      subst h
      exact createTransaction_ok_preserves hWF hInv heq
    · exact Option.noConfusion h
  | update uid txId p =>
    simp only [applyOp] at h
    split at h
    · rename_i t db1 heq
      injection h with h
      subst h
      exact updateTransaction_ok_preserves hWF hInv hsafe.1 hsafe.2 heq
    · exact Option.noConfusion h
  | del uid txId =>
    simp only [applyOp] at h
    split at h
    · rename_i u db1 heq
      injection h with h
      subst h
      exact deleteTransaction_ok_preserves hWF hInv heq
    · exact Option.noConfusion h

/-- A safe, fully successful operation sequence keeps well-formedness and the
invariant. -/
theorem applyOps_preserves {ops : List Op} {db db' : DB} (hWF : wellFormed db)
    (hInv : balanceInvariant db) (hsafe : opsSafe db ops)
    (h : applyOps db ops = some db') : wellFormed db' ∧ balanceInvariant db' := by
  induction ops generalizing db with
  | nil =>
    unfold applyOps at h
    injection h with h
    subst h
    exact ⟨hWF, hInv⟩
  | cons op rest ih =>
    unfold applyOps at h
    split at h
    · rename_i db1 hop
      obtain ⟨hWF1, hInv1⟩ := applyOp_preserves hWF hInv hsafe.1 hop
      have hs2 := hsafe.2
      rw [hop] at hs2
      exact ih hWF1 hInv1 hs2 h
    · exact Option.noConfusion h


/-- Length bookkeeping of the bulk loop: every submitted item lands in exactly
one of the two result lists. -/
theorem bulk_lengths (uid : Nat) :
    ∀ (items : List TxnInput) (db : DB),
      (bulkCreateTransactions db uid items).1.successful.length
        + (bulkCreateTransactions db uid items).1.failed.length = items.length := by
  intro items
  induction items with
  | nil =>
    intro db
    rfl
  | cons d rest ih =>
    intro db
    rcases hc : createTransaction db uid d with ⟨res, db1⟩
    simp only [bulkCreateTransactions, hc]
    cases res with
    | ok t =>
      rcases hb : bulkCreateTransactions db1 uid rest with ⟨r, db2⟩
      have ihd := ih db1
      rw [hb] at ihd
      simp only [hb, List.length_cons]
      simp only [List.length_cons] at ihd ⊢
      omega
    | error e =>
      rcases hb : bulkCreateTransactions db1 uid rest with ⟨r, db2⟩
      have ihd := ih db1
      rw [hb] at ihd
      simp only [hb, List.length_cons]
      simp only [List.length_cons] at ihd ⊢
      omega

/-- C1, counterexample: posting an income of 50 to the loan account succeeds,
yet the §4.1 debt-inverted invariant fails on the resulting store (the code
adds the raw delta for every account category). -/
theorem c1_counterexample :
    (applyOps db0 [Op.create 1 inputLoanIncome]).isSome = true ∧
    ¬ specBalanceInvariant ((applyOps db0 [Op.create 1 inputLoanIncome]).getD db0) := by
  decide

/-- C1 (amended): for every well-formed store satisfying the invariant and
every fully successful safe operation sequence, each account's
`current_balance` equals `opening_balance` plus the signed sum of the active
entries touching it — with the effective delta equal to the raw signed delta
for every account category (no debt inversion). -/
theorem c1_amended_invariant {db db' : DB} {ops : List Op} (hWF : wellFormed db)
    (hInv : balanceInvariant db) (hsafe : opsSafe db ops)
    (h : applyOps db ops = some db') :
    ∀ a ∈ db'.accounts,
      a.current_balance = a.opening_balance + sumDeltas db'.transactions a.id :=
  (applyOps_preserves hWF hInv hsafe h).2

/-- C1 witness: the invariant holds after a concrete create/transfer/update/
delete run from the example store. -/
theorem c1_amended_invariant_witness :
    wellFormed db0 ∧ balanceInvariant db0 ∧ opsSafe db0 opsExample ∧
    ∃ db', applyOps db0 opsExample = some db' ∧
      ∀ a ∈ db'.accounts,
        a.current_balance = a.opening_balance + sumDeltas db'.transactions a.id := by
  have hWF : wellFormed db0 := by
    refine ⟨?_, ?_, ?_⟩ <;> decide
  have hInv : balanceInvariant db0 := by decide
  have hsafe : opsSafe db0 opsExample :=
    ⟨trivial, ⟨trivial, ⟨⟨fun hc => Option.noConfusion hc,
      fun htr => TxType.noConfusion htr⟩, ⟨trivial, trivial⟩⟩⟩⟩
  refine ⟨hWF, hInv, hsafe, ?_⟩
  cases happ : applyOps db0 opsExample with
  | none => exact absurd happ (by decide)
  | some dbF => exact ⟨dbF, rfl, c1_amended_invariant hWF hInv hsafe happ⟩


/-- C2, counterexample: on the loan (debt-category) account with balance 0,
creating a positive income entry of 50 yields balance 50 — the balance
strictly increases, where the claim predicts a strict decrease. -/
theorem c2_counterexample :
    accLoan.type = AccountType.loan ∧ accLoan.current_balance = 0 ∧
    (createTransaction db0 1 inputLoanIncome).1.toOption.isSome = true ∧
    (findAccountById (createTransaction db0 1 inputLoanIncome).2 3).map (·.current_balance)
      = some 50 ∧ (0 : Int) < 50 := by
  decide

/-- C2 (amended): the effective delta equals the raw signed delta for loan and
credit-card accounts too: a successful positive income entry on such an
account increases `current_balance` by the amount. -/
theorem c2_amended_debt_income {db : DB} {uid accId : Nat} {account : Account}
    {d : TxnInput} (hn : (db.accounts.map (·.id)).Nodup)
    (hdebt : account.type = AccountType.loan ∨ account.type = AccountType.credit_card)
    (hfind : findAccount db uid accId = some account)
    (hty : d.type = TxType.income) (hacc : d.accountId = some accId)
    (hcur : currencyMismatch d.currency account.currency = false)
    (hcat : d.categoryId = none) (hpos : 0 < d.amount) :
    ∃ t db', createTransaction db uid d = (Except.ok t, db') ∧
      (findAccountById db' accId).map (·.current_balance)
        = some (account.current_balance + d.amount) ∧
      account.current_balance < account.current_balance + d.amount := by
  have hspec := findAccount_spec hfind
  have hbyid : findAccountById db accId = some account :=
    findAccountById_eq_of_mem hn hspec.1 hspec.2.1
  have htrneg : ¬(d.type = TxType.transfer) := by
    rw [hty]
    exact fun hc => TxType.noConfusion hc
  have habs : |d.amount| = d.amount := abs_of_pos hpos
  have hamt : (if d.type = TxType.expense then -|d.amount| else |d.amount|) = d.amount := by
    rw [hty]
    simp [habs]
  unfold createTransaction
  rw [if_neg htrneg, hacc]
  simp only [hfind, hcur, Bool.false_eq_true, if_false, hcat]
  refine ⟨_, _, rfl, ?_, by omega⟩
  rw [findAccountById_setBalance]
  unfold findAccountById at hbyid ⊢
  rw [hbyid, hamt]
  simp only [Option.map_some']
  rw [writeBal_of_eq _ hspec.2.1]

/-- C2 witness: the loan-account example, balance 0 → 50 after income 50. -/
theorem c2_amended_debt_income_witness :
    ∃ t db', createTransaction db0 1 inputLoanIncome = (Except.ok t, db') ∧
      (findAccountById db' 3).map (·.current_balance) = some 50 ∧
      accLoan.current_balance < 50 := by
  obtain ⟨t, db', heq, hbal, hlt⟩ :=
    @c2_amended_debt_income db0 1 3 accLoan inputLoanIncome (by decide) (Or.inl rfl)
      (by decide) rfl rfl (by decide) rfl (by decide)
  refine ⟨t, db', heq, ?_, by decide⟩
  rw [hbal]
  rfl

/-- C3, code bug: an update whose patch carries an unknown category id fails
validation only after the old effect has been reverted; the failed update
answers `Category not found` and leaves account 1 short the entry's 50. -/
theorem c3_revert_leak_bug :
    (findAccountById dbC3 1).map (·.current_balance) = some 150 ∧
    (updateTransaction dbC3 1 10 patchBadCat).1 = Except.error "Category not found" ∧
    (findAccountById (updateTransaction dbC3 1 10 patchBadCat).2 1).map (·.current_balance)
      = some 100 := by
  decide

/-- C4: the bulk endpoint applies `createTransaction` to each submitted item
in order, isolating failures (successes plus failures partition the batch);
the spec-modelled `bulkImport` reports `success_count`/`failed_count`/`errors`
from the same run; and on the 3-entry example with an invalid second entry the
result is 2 successes, 1 failure, with account 1 reflecting exactly the two
successful entries (10 income, 20 expense on balance 100), the final store
equal to that of running only the two good entries. -/
theorem c4_bulk_import :
    (∀ (db : DB) (uid : Nat) (items : List TxnInput),
      (bulkCreateTransactions db uid items).1.successful.length
        + (bulkCreateTransactions db uid items).1.failed.length = items.length ∧
      (bulkImport db uid items).1.success_count
        = (bulkCreateTransactions db uid items).1.successful.length ∧
      (bulkImport db uid items).1.failed_count
        = (bulkCreateTransactions db uid items).1.failed.length ∧
      (bulkImport db uid items).1.errors = (bulkCreateTransactions db uid items).1.failed ∧
      (bulkImport db uid items).2 = (bulkCreateTransactions db uid items).2) ∧
    (bulkCreateTransactions db0 1 [bulkE1, bulkE2, bulkE3]).1.successful.length = 2 ∧
    (bulkCreateTransactions db0 1 [bulkE1, bulkE2, bulkE3]).1.failed.length = 1 ∧
    (bulkImport db0 1 [bulkE1, bulkE2, bulkE3]).1.success_count = 2 ∧
    (bulkImport db0 1 [bulkE1, bulkE2, bulkE3]).1.failed_count = 1 ∧
    (findAccountById (bulkCreateTransactions db0 1 [bulkE1, bulkE2, bulkE3]).2 1).map
      (·.current_balance) = some 90 ∧
    (bulkCreateTransactions db0 1 [bulkE1, bulkE2, bulkE3]).2
      = (bulkCreateTransactions db0 1 [bulkE1, bulkE3]).2 := by
  refine ⟨?_, by decide, by decide, by decide, by decide, by decide, ?_⟩
  · intro db uid items
    refine ⟨bulk_lengths uid items db, ?_, ?_, ?_, ?_⟩ <;>
      · rcases hbc : bulkCreateTransactions db uid items with ⟨r, db2⟩
        simp [bulkImport, hbc]
  · decide


/-- C5: for an active rule with a positive interval, `calculateNextDue`
computes exactly the §4.3 projection: the anchor date advanced by `interval`
units of the frequency; when that date exceeds a set `end_date` the rule is
terminal (`ended`, not due); otherwise it is due exactly when the next-due
date is on or before today. -/
theorem c5_next_due (r : RecurringRule) (today : Date) (hact : r.is_active = true)
    (hint : 1 ≤ r.interval) :
    calculateNextDue r today =
      (if ruleEnded r then
        { next_due_date := none, is_due := false, status := some DueStatus.ended }
      else
        { next_due_date := some (specNextDue r),
          is_due := dateLe (specNextDue r) today,
          status := some (if dateLe (specNextDue r) today then DueStatus.due
                          else DueStatus.scheduled) }) := by
  have hi : (if r.interval = 0 then 1 else r.interval) = r.interval := by
    rw [if_neg]
    omega
  unfold calculateNextDue ruleEnded specNextDue
  rw [hact]
  simp only [Bool.not_true, Bool.false_eq_true, if_false, hi]

/-- C5 witness: monthly rule, interval 1, anchored 2025-01-15, never processed:
next due 2025-02-15; on 2025-02-20 it is due. -/
theorem c5_next_due_witness :
    ruleMonthly.is_active = true ∧ 1 ≤ ruleMonthly.interval ∧
    (calculateNextDue ruleMonthly feb20).next_due_date
      = some { year := 2025, month := 2, day := 15 } ∧
    (calculateNextDue ruleMonthly feb20).is_due = true := by
  have h := c5_next_due ruleMonthly feb20 rfl (by decide)
  rw [h]
  decide


/-- C6: updating an income/expense entry with a patch that changes no
effective field (kind, account, amount magnitude; any supplied category
resolves) succeeds and leaves the referenced account's `current_balance`
exactly as it was: the revert and the re-apply cancel. -/
theorem c6_noop_update {db : DB} {uid txId : Nat} {t : Txn} {aid : Nat} {acc : Account}
    {p : TxnPatch} (hn : (db.accounts.map (·.id)).Nodup)
    (hfind : findTxn db uid txId = some t) (hty : t.type ≠ TxType.transfer)
    (hsign : signOk t) (haid : t.account_id = some aid)
    (hacc : acc ∈ db.accounts) (haccid : acc.id = aid) (haccuid : acc.user_id = uid)
    (haccdel : acc.deleted = false)
    (hpt : p.type = none ∨ p.type = some t.type)
    (hpa : p.accountId = none ∨ p.accountId = some aid)
    (hpam : p.amount = none ∨ ∃ m, p.amount = some m ∧ |m| = |t.amount|)
    (hpcat : p.categoryId = none ∨
      ∃ cid c, p.categoryId = some cid ∧ findCategory db uid cid = some c) :
    ∃ t' db', updateTransaction db uid txId p = (Except.ok t', db') ∧
      (findAccountById db' aid).map (·.current_balance) = some acc.current_balance := by
  have hbyid : findAccountById db aid = some acc := findAccountById_eq_of_mem hn hacc haccid
  have hrev : revertTransactionBalance db t
      = setBalance db aid (acc.current_balance - t.amount) := by
    unfold revertTransactionBalance
    rw [if_neg hty, haid]
    simp only [hbyid]
  have hnotr : ¬(p.type = some TxType.transfer) := by
    rcases hpt with h | h
    · rw [h]
      exact fun hc => Option.noConfusion hc
    · rw [h]
      intro hc
      injection hc with hc2
      exact hty hc2
  have horelse : (p.accountId.orElse fun _ => t.account_id) = some aid := by
    rcases hpa with h | h
    · rw [h]
      simpa [Option.orElse] using haid
    · rw [h]
      rfl
  have hfindacc : findAccount (setBalance db aid (acc.current_balance - t.amount)) uid aid
      = some { acc with current_balance := acc.current_balance - t.amount } := by
    rw [findAccount_setBalance, findAccount_eq_of_mem hn hacc haccid haccuid haccdel,
      Option.map_some', writeBal_of_eq _ haccid]
  have hcatcond : ¬((match p.categoryId with
      | some cid =>
        (findCategory (setBalance db aid (acc.current_balance - t.amount)) uid cid).isNone
      | none => false) = true) := by
    rcases hpcat with h | ⟨cid, c, hc, hfoundc⟩
    · rw [h]
      simp
    · rw [hc]
      have he : findCategory (setBalance db aid (acc.current_balance - t.amount)) uid cid
          = findCategory db uid cid := rfl
      simp [he, hfoundc]
  have hnewty : p.type.getD t.type = t.type := by
    rcases hpt with h | h <;> rw [h] <;> rfl
  have habs2 : abs (p.amount.getD (abs t.amount)) = abs t.amount := by
    rcases hpam with h | ⟨m, hm, hma⟩
    · rw [h]
      simp [abs_abs]
    · rw [hm]
      simpa using hma
  have htx : (if p.type.getD t.type = TxType.expense
      then -(abs (p.amount.getD (abs t.amount)))
      else abs (p.amount.getD (abs t.amount))) = t.amount := by
    rw [hnewty, habs2]
    match hty2 : t.type, hty with
    | TxType.income, _ =>
      rw [if_neg (fun hc => TxType.noConfusion hc)]
      have hs : 0 ≤ t.amount := by
        unfold signOk at hsign
        rw [hty2] at hsign
        exact hsign
      exact abs_of_nonneg hs
    | TxType.expense, _ =>
      rw [if_pos rfl]
      have hs : t.amount ≤ 0 := by
        unfold signOk at hsign
        rw [hty2] at hsign
        exact hsign
      rw [abs_of_nonpos hs]
      ring
  simp only [updateTransaction, hfind]
  rw [hrev, if_neg hnotr]
  simp only [horelse, hfindacc]
  rw [if_neg hcatcond]
  refine ⟨_, _, rfl, ?_⟩
  rw [htx]
  have hstep : findAccountById
      (replaceTxn (setBalance db aid (acc.current_balance - t.amount)) txId
        { t with type := p.type.getD t.type, account_id := some aid,
                 category_id := (match p.categoryId with
                                 | some cid => some cid
                                 | none => t.category_id),
                 amount := t.amount, currency := p.currency.getD t.currency }) aid
      = some { acc with current_balance := acc.current_balance - t.amount } := by
    show findAccountById (setBalance db aid (acc.current_balance - t.amount)) aid = _
    rw [findAccountById_setBalance, hbyid, Option.map_some', writeBal_of_eq _ haccid]
  rw [findAccountById_setBalance, hstep, Option.map_some',
    writeBal_of_eq _ (show ({ acc with
      current_balance := acc.current_balance - t.amount } : Account).id = aid from haccid)]
  simp only [Option.map_some', Option.some.injEq]
  show acc.current_balance - t.amount + t.amount = acc.current_balance
  ring

/-- C6 witness: the empty patch on the stored income entry leaves account 1 at
its prior balance of 150. -/
theorem c6_noop_update_witness :
    ∃ t' db', updateTransaction dbC3 1 10 patchNone = (Except.ok t', db') ∧
      (findAccountById db' 1).map (·.current_balance) = some accA150.current_balance := by
  exact @c6_noop_update dbC3 1 10 txn10 1 accA150 patchNone (by decide) (by decide)
    (by decide) (by decide) rfl (by decide) rfl rfl (by decide)
    (Or.inl rfl) (Or.inl rfl) (Or.inl rfl) (Or.inl rfl)


/-- C7: a successful transfer of a non-negative amount `m` between two
distinct owned accounts of equal currency debits the source by `m` and
credits the destination by `m`. -/
theorem c7_transfer_balances {db : DB} {uid fid tid : Nat} {fa ta : Account} (m : Int)
    (hn : (db.accounts.map (·.id)).Nodup)
    (hf : findAccount db uid fid = some fa) (ht : findAccount db uid tid = some ta)
    (hne : fid ≠ tid) (hcur : fa.currency = ta.currency) (hm : 0 ≤ m) :
    ∃ t db', createTransaction db uid
        { type := TxType.transfer, fromAccountId := some fid, toAccountId := some tid,
          amount := m } = (Except.ok t, db') ∧
      (findAccountById db' fid).map (·.current_balance) = some (fa.current_balance - m) ∧
      (findAccountById db' tid).map (·.current_balance) = some (ta.current_balance + m) := by
  have hfw := findAccount_spec hf
  have htw := findAccount_spec ht
  have hfbyid : findAccountById db fid = some fa := findAccountById_eq_of_mem hn hfw.1 hfw.2.1
  have htbyid : findAccountById db tid = some ta := findAccountById_eq_of_mem hn htw.1 htw.2.1
  have habs : |m| = m := abs_of_nonneg hm
  have hcur2 : ¬(fa.currency ≠ ta.currency) := fun hc => hc hcur
  unfold createTransaction
  rw [if_pos rfl]
  simp only []
  rw [if_neg hne]
  simp only [hf, ht]
  rw [if_neg hcur2]
  refine ⟨_, _, rfl, ?_, ?_⟩
  · rw [findAccountById_setBalance, findAccountById_setBalance]
    unfold findAccountById at hfbyid ⊢
    rw [hfbyid, habs, Option.map_some', Option.map_some',
      writeBal_of_eq _ hfw.2.1,
      writeBal_of_ne _ (show ({ fa with
        current_balance := fa.current_balance - m } : Account).id ≠ tid by
          show fa.id ≠ tid
          rw [hfw.2.1]
          exact hne)]
    rfl
  · rw [findAccountById_setBalance, findAccountById_setBalance]
    unfold findAccountById at htbyid ⊢
    rw [htbyid, habs, Option.map_some', Option.map_some',
      writeBal_of_ne _ (show ta.id ≠ fid by
        rw [htw.2.1]
        exact fun hc => hne hc.symm),
      writeBal_of_eq _ htw.2.1]
    rfl

/-- C7 witness: transferring 30 from account A (100) to account B (50) yields
A = 70 and B = 80. -/
theorem c7_transfer_balances_witness :
    ∃ t db', createTransaction db0 1 transfer30 = (Except.ok t, db') ∧
      (findAccountById db' 1).map (·.current_balance) = some 70 ∧
      (findAccountById db' 2).map (·.current_balance) = some 80 := by
  obtain ⟨t, db', heq, h1, h2⟩ :=
    @c7_transfer_balances db0 1 1 2 accA accB 30 (by decide) (by decide) (by decide)
      (by decide) rfl (by decide)
  exact ⟨t, db', heq, by simpa [accA] using h1, by simpa [accB] using h2⟩


/-- Shape of a successful creation: the returned row has the request's kind,
its amount is the sign-normalized magnitude, and it is appended to the table. -/
theorem createTransaction_ok_shape {db : DB} {uid : Nat} {d : TxnInput} {t : Txn}
    {db' : DB} (h : createTransaction db uid d = (Except.ok t, db')) :
    t.type = d.type ∧
    t.amount = (if d.type = TxType.expense then -|d.amount| else |d.amount|) ∧
    db'.transactions = db.transactions ++ [t] := by
  unfold createTransaction at h
  split at h
  · rename_i htype
    split at h
    · split at h
      · simp at h
      · split at h
        · simp at h
        · split at h
          · simp at h
          · split at h
            · simp at h
            · simp only [Prod.mk.injEq] at h
              obtain ⟨ht', hdb⟩ := h
              injection ht' with ht'
              subst hdb
              subst ht'
              refine ⟨htype.symm, ?_, by rw [setBalance_transactions, setBalance_transactions]⟩
              rw [htype, if_neg (fun hc => TxType.noConfusion hc)]
    · simp at h
  · split at h
    · simp at h
    · split at h
      · simp at h
      · split at h
        · simp at h
        · split at h
          · simp at h
          · simp only [Prod.mk.injEq] at h
            obtain ⟨ht', hdb⟩ := h
            injection ht' with ht'
            subst hdb
            subst ht'
            exact ⟨rfl, rfl, by rw [setBalance_transactions]⟩

/-- Shape of a successful update: the returned row's amount is a normalized
magnitude for its kind, and it overwrites the matched row of the table. -/
theorem updateTransaction_ok_shape {db : DB} {uid txId : Nat} {p : TxnPatch} {t : Txn}
    {db' : DB} (h : updateTransaction db uid txId p = (Except.ok t, db')) :
    (∃ a : Int, t.amount = if t.type = TxType.expense then -|a| else |a|) ∧
    db'.transactions = db.transactions.map fun u => if u.id == txId then t else u := by
  unfold updateTransaction at h
  split at h
  · simp at h
  · rename_i xf oldT hfind
    simp only [] at h
    split at h
    · split at h
      · split at h
        · simp only [Prod.mk.injEq] at h
          obtain ⟨ht', hdb⟩ := h
          injection ht' with ht'
          subst hdb
          subst ht'
          constructor
          · exact ⟨jsOrAmount p.amount oldT.amount,
              by rw [if_neg (fun hc => TxType.noConfusion hc)]⟩
          · rw [setBalance_transactions, setBalance_transactions]
            show ((revertTransactionBalance db oldT).transactions.map _) = _
            rw [revert_transactions]
        · simp at h
      · simp at h
    · split at h
      · simp at h
      · split at h
        · simp at h
        · split at h
          · simp at h
          · simp only [Prod.mk.injEq] at h
            obtain ⟨ht', hdb⟩ := h
            injection ht' with ht'
            subst hdb
            subst ht'
            constructor
            · exact ⟨p.amount.getD |oldT.amount|, rfl⟩
            · rw [setBalance_transactions]
              show ((revertTransactionBalance db oldT).transactions.map _) = _
              rw [revert_transactions]

/-- A row whose amount is the sign-normalized magnitude for its kind satisfies
the sign invariant. -/
theorem signOk_of_normalized {t : Txn} {a : Int}
    (h : t.amount = if t.type = TxType.expense then -|a| else |a|) : signOk t := by
  unfold signOk
  match ht : t.type with
  | TxType.income =>
    rw [ht, if_neg (fun hc => TxType.noConfusion hc)] at h
    rw [h]
    exact abs_nonneg a
  | TxType.expense =>
    rw [ht, if_pos rfl] at h
    rw [h]
    simp [abs_nonneg]
  | TxType.transfer =>
    rw [ht, if_neg (fun hc => TxType.noConfusion hc)] at h
    rw [h]
    exact abs_nonneg a

/-- C8: every row a successful create or update persists satisfies the sign
invariant — income amounts are stored as `abs(amount)`, expense amounts as
`-abs(amount)` whatever sign the caller supplied, transfer amounts as the
positive magnitude `abs(amount)` — and both endpoints keep every other stored
row unchanged, so a sign-correct table stays sign-correct. -/
theorem c8_sign_invariant :
    (∀ (db : DB) (uid : Nat) (d : TxnInput) (t : Txn) (db' : DB),
      createTransaction db uid d = (Except.ok t, db') →
      (d.type = TxType.income → t.amount = |d.amount|) ∧
      (d.type = TxType.expense → t.amount = -|d.amount|) ∧
      (d.type = TxType.transfer → t.amount = |d.amount|) ∧
      ((∀ u ∈ db.transactions, signOk u) → ∀ u ∈ db'.transactions, signOk u)) ∧
    (∀ (db : DB) (uid txId : Nat) (p : TxnPatch) (t : Txn) (db' : DB),
      updateTransaction db uid txId p = (Except.ok t, db') →
      signOk t ∧ ((∀ u ∈ db.transactions, signOk u) → ∀ u ∈ db'.transactions, signOk u)) := by
  constructor
  · intro db uid d t db' h
    obtain ⟨hty, hamt, htx⟩ := createTransaction_ok_shape h
    have hsign : signOk t := @signOk_of_normalized t d.amount (by rw [hamt, hty])
    refine ⟨?_, ?_, ?_, ?_⟩
    · intro hc
      rw [hamt, hc, if_neg (fun hh => TxType.noConfusion hh)]
    · intro hc
      rw [hamt, hc, if_pos rfl]
    · intro hc
      rw [hamt, hc, if_neg (fun hh => TxType.noConfusion hh)]
    · intro hall u hu
      rw [htx] at hu
      rcases List.mem_append.mp hu with hmem | hmem
      · exact hall u hmem
      · rw [List.mem_singleton] at hmem
        subst hmem
        exact hsign
  · intro db uid txId p t db' h
    obtain ⟨⟨a, hamt⟩, htx⟩ := updateTransaction_ok_shape h
    have hsign : signOk t := signOk_of_normalized hamt
    refine ⟨hsign, ?_⟩
    intro hall u hu
    rw [htx] at hu
    obtain ⟨v, hv, hvu⟩ := List.mem_map.mp hu
    by_cases hvid : v.id = txId
    · rw [if_pos (beq_iff_eq.mpr hvid)] at hvu
      subst hvu
      exact hsign
    · rw [if_neg (by simp [hvid])] at hvu
      subst hvu
      exact hall v hv

/-- C8 witness: creating an income whose payload carries amount −7 stores +7. -/
theorem c8_sign_invariant_witness :
    ∃ t db', createTransaction db0 1 inputNegIncome = (Except.ok t, db') ∧
      t.amount = 7 ∧ signOk t := by
  rcases hc : createTransaction db0 1 inputNegIncome with ⟨res, dbx⟩
  cases res with
  | error e =>
    exfalso
    have hok : (createTransaction db0 1 inputNegIncome).1.toOption.isSome = true := by
      decide
    rw [hc] at hok
    simp [Except.toOption] at hok
  | ok t =>
    have h := c8_sign_invariant.1 db0 1 inputNegIncome t dbx hc
    have hinc := h.1 rfl
    refine ⟨t, dbx, rfl, ?_, ?_⟩
    · rw [hinc]
      decide
    · unfold signOk
      have hty := (createTransaction_ok_shape hc).1
      rw [hty]
      show 0 ≤ t.amount
      rw [hinc]
      decide


/-- If the parent chain from `start` reaches `target` in fewer steps than the
loop has fuel, the circular-reference walk answers true (it stops early at
`target` or at a revisited node, both of which return true). -/
theorem circularLoop_of_reach (cats : List Category) (uid target : Nat) :
    ∀ (k fuel : Nat) (visited : List Nat) (start : Nat), k < fuel →
      parentChain cats uid k start = some target →
      circularLoop cats uid target fuel visited (some start) = true := by
  intro k
  induction k with
  | zero =>
    intro fuel visited start hlt hchain
    unfold parentChain at hchain
    injection hchain with hchain
    subst hchain
    match fuel, hlt with
    | fuel + 1, _ =>
      unfold circularLoop
      rw [if_pos rfl]
  | succ k ih =>
    intro fuel visited start hlt hchain
    unfold parentChain at hchain
    match fuel, hlt with
    | fuel + 1, hlt =>
      unfold circularLoop
      by_cases hs : start = target
      · rw [if_pos hs]
      · rw [if_neg hs]
        by_cases hv : start ∈ visited
        · rw [if_pos hv]
        · rw [if_neg hv]
          match hp : parentOf cats uid start with
          | some pid =>
            rw [hp] at hchain
            exact ih fuel (start :: visited) pid (by omega) hchain
          | none =>
            rw [hp] at hchain
            exact Option.noConfusion hchain

/-- C9: a category update whose new parent's ancestor chain leads back to the
category itself is rejected with a validation error, and the categories table
is returned unchanged — no write happens on any category. -/
theorem c9_cycle_rejected {cats : List Category} {uid categoryId newParentId : Nat}
    {p : CatPatch} (hp : p.parent_id = some (some newParentId))
    (hreach : ∃ k, k ≤ cats.length ∧ parentChain cats uid k newParentId = some categoryId) :
    ∃ msg, updateCategory cats uid categoryId p = (Except.error msg, cats) := by
  obtain ⟨k, hk, hchain⟩ := hreach
  have hcirc : wouldCreateCircularReference cats uid categoryId newParentId = true :=
    circularLoop_of_reach cats uid categoryId k (cats.length + 1) [] newParentId
      (by omega) hchain
  unfold updateCategory
  split
  · exact ⟨"Category not found", rfl⟩
  · rename_i existing hex
    rw [hp]
    split
    · rename_i heq
      exact Option.noConfusion heq
    · rename_i parentField heq
      injection heq with heq
      subst heq
      split
      · exact ⟨"Category cannot be its own parent", rfl⟩
      · split
        · rename_i hne heq
          exact Option.noConfusion heq
        · rename_i hne npid heq
          injection heq with heq
          subst heq
          split
          · exact ⟨"Parent category not found", rfl⟩
          · rename_i parent hpar
            split
            · exact ⟨"Parent category type must match", rfl⟩
            · exact ⟨"This would create a circular reference", rfl⟩

/-- C9 witness: with B already a child of A, re-parenting A under B (A→B→A)
is rejected and the store is untouched. -/
theorem c9_cycle_rejected_witness :
    (∃ msg, updateCategory catsAB 1 1 patchParentB = (Except.error msg, catsAB)) ∧
    updateCategory catsAB 1 1 patchParentB
      = (Except.error "This would create a circular reference", catsAB) := by
  constructor
  · exact c9_cycle_rejected rfl ⟨1, by decide, by decide⟩
  · decide

/-- C10: when the creation payload omits `currency`, the mismatch check is
skipped — a valid owned account (and resolvable category, if any) yields a
successful insert whose stored currency is the account's; and the
currency-mismatch error can never be produced by a payload with no currency. -/
theorem c10_currency_optional :
    (∀ (db : DB) (uid accId : Nat) (account : Account) (d : TxnInput),
      d.type ≠ TxType.transfer → d.accountId = some accId →
      findAccount db uid accId = some account → d.currency = none →
      (match d.categoryId with
       | some cid => (findCategory db uid cid).isSome = true
       | none => True) →
      ∃ t db', createTransaction db uid d = (Except.ok t, db') ∧
        t.currency = account.currency) ∧
    (∀ (db : DB) (uid : Nat) (d : TxnInput),
      d.currency = none →
      (createTransaction db uid d).1
        ≠ Except.error "Transaction currency must match account currency") := by
  constructor
  · intro db uid accId account d hty hacc hfind hcur hcat
    have hmis : currencyMismatch d.currency account.currency = false := by
      rw [hcur]
      rfl
    have hcatf : ¬((match d.categoryId with
        | some cid => (findCategory db uid cid).isNone
        | none => false) = true) := by
      match hdc : d.categoryId with
      | some cid =>
        intro hcc
        rw [hdc] at hcat
        have hcat2 : (findCategory db uid cid).isSome = true := hcat
        have hnone : (findCategory db uid cid).isNone = true := hcc
        rw [Option.isNone_iff_eq_none] at hnone
        rw [hnone] at hcat2
        simp at hcat2
      | none => simp
    unfold createTransaction
    rw [if_neg hty, hacc]
    simp only [hfind, hmis, Bool.false_eq_true, if_false]
    rw [if_neg hcatf]
    exact ⟨_, _, rfl, rfl⟩
  · intro db uid d hcur hc
    unfold createTransaction at hc
    split at hc
    · split at hc
      · split at hc
        · injection hc with hmsg
          exact absurd hmsg (by decide)
        · split at hc
          · injection hc with hmsg
            exact absurd hmsg (by decide)
          · split at hc
            · injection hc with hmsg
              exact absurd hmsg (by decide)
            · split at hc
              · injection hc with hmsg
                exact absurd hmsg (by decide)
              · exact Except.noConfusion hc
      · injection hc with hmsg
        exact absurd hmsg (by decide)
    · split at hc
      · injection hc with hmsg
        exact absurd hmsg (by decide)
      · split at hc
        · injection hc with hmsg
          exact absurd hmsg (by decide)
        · split at hc
          · rename_i hmis
            rw [hcur] at hmis
            exact absurd hmis (by simp [currencyMismatch])
          · split at hc
            · injection hc with hmsg
              exact absurd hmsg (by decide)
            · exact Except.noConfusion hc

/-- C10 witness: an income payload with no currency posts successfully and the
stored row carries the account's currency. -/
theorem c10_currency_optional_witness :
    ∃ t db', createTransaction db0 1 inputNoCurrency = (Except.ok t, db') ∧
      t.currency = accA.currency := by
  exact c10_currency_optional.1 db0 1 1 accA inputNoCurrency (by decide) rfl (by decide)
    rfl trivial

end Lumina
